import Mathlib

/-!
Verification of the `stl-parser` repository: a shallow embedding of the
ASCII STL parser (package `stl`, files `parser.go` / `count.go` /
`triangle.go` sources) together with theorems settling the frozen claims.

Modelling conventions:
* A raw text line is a `List Nat` of byte values (each intended `< 256`);
  the input of a parse is the ordered list of lines produced by the line
  source (`bufio.Scanner` with `ScanLines`).
* `bufio.ScanWords` word splitting is modelled over ASCII whitespace bytes.
* Go `float32` slots of `Triangle` are represented by the source token
  (a `List Nat`) that `strconv.ParseFloat(_, 32)` accepted: no claim
  depends on the numeric value of a coordinate, only on which tokens
  parse, so the token itself is the faithful observable datum.
* `strconv.ParseFloat(_, 32)` success is modelled by `isValidFloat`:
  the case-insensitive specials (`inf`/`infinity` with optional sign,
  unsigned `nan`), the full `readFloat` number syntax (decimal and
  hexadecimal mantissas, exponents, `_` digit separators subject to
  `underscoreOK`), and the float32 overflow (`ErrRange`) rejection,
  decided by exact integer comparison against the rounding threshold
  `2^103 * (2^25 - 1)`; see the section comment at the model.
* The Go package-level variables `name` and `triangles` (file
  `count.go`) are threaded explicitly as a `Globals` value, and also
  appear as fields of the parser state, seeded from the globals, so that
  their cross-parse persistence is represented faithfully.
* The parser state carries, besides the Go `parser` struct fields, a
  ghost field `errorLog` that records every `addError` invocation in
  order; the Go field `errors` itself is modelled exactly as the code
  computes it (`errors.Join(fmt.Errorf("%d: %w", p.line, msg))`, i.e.
  the previous value is discarded and the joined value holds exactly the
  one new record).  The Go struct field `ErrorText` is never read or
  written anywhere in the repository and is omitted.
* I/O-level scanner failures (`Scanner.Err() != nil`) cannot occur for a
  pure in-memory line list, so the corresponding branches of
  `nextWord`/`nextLine` are dead in the model and are not represented.
-/

namespace STL

/-! ## Bytes, whitespace, words -/

/-- Whitespace bytes recognised by `bufio.ScanWords` (ASCII fragment of
`unicode.IsSpace`): space, \t, \n, \v, \f, \r. -/
def isSpaceByte (b : Nat) : Bool :=
  b == 32 || b == 9 || b == 10 || b == 11 || b == 12 || b == 13

/-- Word splitting of one line, as `bufio.ScanWords` yields it: maximal
runs of non-whitespace bytes.  `acc` holds the bytes of the word being
built, in reverse. -/
def splitWordsAux : List Nat → List Nat → List (List Nat)
  | [], acc => if acc.isEmpty then [] else [acc.reverse]
  | b :: bs, acc =>
    if isSpaceByte b then
      if acc.isEmpty then splitWordsAux bs [] else acc.reverse :: splitWordsAux bs []
    else splitWordsAux bs (b :: acc)

/-- All words of a line, in order. -/
def splitWords (l : List Nat) : List (List Nat) := splitWordsAux l []

/-- Rebuild a line from words separated by single spaces (used to state
properties about canonically laid out input). -/
def mkLine : List (List Nat) → List Nat
  | [] => []
  | [w] => w
  | w :: w2 :: ws => w ++ 32 :: mkLine (w2 :: ws)

/-- A token that can stand as one whitespace-delimited word on a line:
nonempty and free of whitespace bytes. -/
def isWordTok (t : List Nat) : Bool :=
  !t.isEmpty && t.all (fun b => !isSpaceByte b)

/-! ## Keyword byte strings (the regular expressions `^kw$` of
`identRegexps` match exactly these byte sequences) -/

/-- Bytes of "solid". -/
def solidKw : List Nat := [115, 111, 108, 105, 100]

/-- Bytes of "facet". -/
def facetKw : List Nat := [102, 97, 99, 101, 116]

/-- Bytes of "normal". -/
def normalKw : List Nat := [110, 111, 114, 109, 97, 108]

/-- Bytes of "outer". -/
def outerKw : List Nat := [111, 117, 116, 101, 114]

/-- Bytes of "loop". -/
def loopKw : List Nat := [108, 111, 111, 112]

/-- Bytes of "vertex". -/
def vertexKw : List Nat := [118, 101, 114, 116, 101, 120]

/-- Bytes of "endloop". -/
def endloopKw : List Nat := [101, 110, 100, 108, 111, 111, 112]

/-- Bytes of "endfacet". -/
def endfacetKw : List Nat := [101, 110, 100, 102, 97, 99, 101, 116]

/-- Bytes of "endsolid". -/
def endsolidKw : List Nat := [101, 110, 100, 115, 111, 108, 105, 100]

/-- Bytes of "solid " — the Go variable `expectedASCIIHeaderPrefix`. -/
def expectedASCIIHeader : List Nat := solidKw ++ [32]

/-! ## Identifier bitmask constants (the Go `const` block: `idNone = 0`,
`idSolid = 1 << iota` with iota = 1 at that line, then doubling) -/

def idNone : Nat := 0
def idSolid : Nat := 2
def idFacet : Nat := 4
def idNormal : Nat := 8
def idOuter : Nat := 16
def idLoop : Nat := 32
def idVertex : Nat := 64
def idEndloop : Nat := 128
def idEndfacet : Nat := 256
def idEndsolid : Nat := 512

/-- The match test of `identRegexps[ident]` for exactly the keys present
in the Go map; any other key yields a nil regexp in Go and is never
used, modelled as `false`. -/
def identMatches (ident : Nat) (w : List Nat) : Bool :=
  if ident == idSolid then w == solidKw
  else if ident == idFacet then w == facetKw
  else if ident == idNormal then w == normalKw
  else if ident == idOuter then w == outerKw
  else if ident == idLoop then w == loopKw
  else if ident == idVertex then w == vertexKw
  else if ident == idEndloop then w == endloopKw
  else if ident == idEndfacet then w == endfacetKw
  else if ident == idEndsolid then w == endsolidKw
  else if ident == (idFacet ||| idEndsolid) then w == facetKw || w == endsolidKw
  else false

/-- The Go `idents` map (keyword spelling for a single identifier bit);
a missing key yields the empty string, as Go map access does. -/
def identName (ident : Nat) : List Nat :=
  if ident == idSolid then solidKw
  else if ident == idFacet then facetKw
  else if ident == idNormal then normalKw
  else if ident == idOuter then outerKw
  else if ident == idLoop then loopKw
  else if ident == idVertex then vertexKw
  else if ident == idEndloop then endloopKw
  else if ident == idEndfacet then endfacetKw
  else if ident == idEndsolid then endsolidKw
  else []

/-! ## strconv.ParseFloat model

`parseFloat32` calls `strconv.ParseFloat(p.currentWord, 32)` and treats
any non-nil error as invalid.  `ParseFloat` succeeds exactly when
(a) the whole string is one of the specials — an optionally signed
`inf`/`infinity` or an unsigned `nan`, case-insensitively — or (b) the
whole string is consumed by `readFloat`'s number syntax (optional sign;
decimal digits with at most one dot and an optional `e`/`E` exponent,
or a `0x`/`0X` hexadecimal mantissa with at most one dot and a
mandatory `p`/`P` binary exponent; exponents take an optional sign and
at least one leading decimal digit; `_` digit separators are allowed
wherever `underscoreOK` admits them) AND (c) the value does not
overflow `float32`: values whose magnitude reaches the rounding
threshold `2^103 * (2^25 - 1)` — the midpoint between the largest
finite `float32` and `2^128`, which round-to-nearest-even sends to
infinity — make `ParseFloat` return `ErrRange`.  Underflow to zero
produces no error.  The model below mirrors `special`, `readFloat` and
`underscoreOK` from Go's `strconv/atof.go`, computing the exact
mantissa and net exponent, and decides the overflow comparison with
exact integer arithmetic (exponents are clamped only where the verdict
is already forced: a positive exponent ≥ 129 always overflows since
the base is ≥ 2 and `2^129 > 2^128`, and a negative exponent of
magnitude beyond the mantissa's bit length never overflows since
`m < 2^k ≤ base^k`). -/

/-- Decimal digit byte. -/
def isDigitByte (b : Nat) : Bool := 48 ≤ b && b ≤ 57

/-- Lower-case an ASCII letter byte. -/
def toLowerByte (b : Nat) : Nat := if 65 ≤ b && b ≤ 90 then b + 32 else b

/-- Bytes of "inf". -/
def infClassKw : List Nat := [105, 110, 102]

/-- Bytes of "infinity". -/
def infinityClassKw : List Nat := [105, 110, 102, 105, 110, 105, 116, 121]

/-- Bytes of "nan". -/
def nanClassKw : List Nat := [110, 97, 110]

/-- Value of a mantissa digit byte: decimal digits always, and the hex
letters a–f/A–F when the base is 16 (Go `readFloat`'s digit cases). -/
def digitVal (base : Nat) (c : Nat) : Option Nat :=
  if isDigitByte c then some (c - 48)
  else if base == 16 then
    let l := toLowerByte c
    if 97 ≤ l && l ≤ 102 then some (l - 87) else none
  else none

/-- Scanner state of Go's `underscoreOK`: `^` (start of number), `0`
(a digit or the base prefix), `_` (an underscore), `!` (anything
else). -/
inductive USaw where
  | start
  | digit
  | under
  | other
  deriving DecidableEq, Repr

/-- The loop of Go's `underscoreOK`: an underscore must follow and be
followed by a digit (the base prefix counting as a digit). -/
def underscoreOKAux (hex : Bool) : List Nat → USaw → Bool
  | [], saw => !(saw == USaw.under)
  | c :: cs, saw =>
    if (digitVal (if hex then 16 else 10) c).isSome then
      underscoreOKAux hex cs USaw.digit
    else if c == 95 then
      if saw == USaw.digit then underscoreOKAux hex cs USaw.under else false
    else
      if saw == USaw.under then false
      else underscoreOKAux hex cs USaw.other

/-- Go's `underscoreOK` over the whole token: strip an optional sign,
recognise an optional `0x`/`0X` base prefix (which counts as a digit),
then run the separator scan. -/
def underscoreOK (bs0 : List Nat) : Bool :=
  let s := match bs0 with
    | c :: r => if c == 43 || c == 45 then r else c :: r
    | [] => []
  match s with
  | c0 :: c1 :: rest =>
    if c0 == 48 && toLowerByte c1 == 120 then underscoreOKAux true rest USaw.digit
    else underscoreOKAux false (c0 :: c1 :: rest) USaw.start
  | _ => underscoreOKAux false s USaw.start

/-- Result of the mantissa loop of Go's `readFloat`: the digits' exact
value, the count of digits after the dot, whether any digit and any
underscore was seen, and the unconsumed remainder (the loop stops at
the first byte that is not a digit, a first dot, or an underscore). -/
structure MantScan where
  mant : Nat
  frac : Nat
  sawdigits : Bool
  underscores : Bool
  rest : List Nat
  deriving Repr

/-- The mantissa loop of Go's `readFloat`. -/
def scanMantissa (base : Nat) : List Nat → Nat → Nat → Bool → Bool → Bool → MantScan
  | [], mant, frac, _, sawdigits, und => ⟨mant, frac, sawdigits, und, []⟩
  | c :: cs, mant, frac, sawdot, sawdigits, und =>
    if c == 95 then scanMantissa base cs mant frac sawdot sawdigits true
    else if c == 46 then
      if sawdot then ⟨mant, frac, sawdigits, und, c :: cs⟩
      else scanMantissa base cs mant frac true sawdigits und
    else
      match digitVal base c with
      | some d =>
        scanMantissa base cs (mant * base + d) (if sawdot then frac + 1 else frac)
          sawdot true und
      | none => ⟨mant, frac, sawdigits, und, c :: cs⟩

/-- The exponent-digit loop of Go's `readFloat`: decimal digits and
underscores up to the end of the token (any other byte leaves the
token not fully consumed, hence invalid). -/
def scanExpDigits : List Nat → Nat → Bool → Option (Nat × Bool)
  | [], e, und => some (e, und)
  | c :: cs, e, und =>
    if c == 95 then scanExpDigits cs e true
    else if isDigitByte c then scanExpDigits cs (e * 10 + (c - 48)) und
    else none

/-- Go's `readFloat` restricted to full consumption of the token, as
`ParseFloat` requires: yields `(hex, m, e)` such that the token's value
is `m * 10^e` (decimal) or `m * 2^e` (hex), or `none` when the syntax
is rejected.  The hex base prefix is recognised only when at least one
byte follows it (`i+2 < len(s)` in Go); a hex mantissa requires the
binary exponent; an exponent needs at least one leading decimal digit
after its optional sign; underscores anywhere make acceptance
conditional on `underscoreOK` of the whole token. -/
def readFloatModel (bs0 : List Nat) : Option (Bool × Nat × Int) :=
  let bs1 := match bs0 with
    | c :: r => if c == 43 || c == 45 then r else c :: r
    | [] => []
  let hex : Bool := match bs1 with
    | c0 :: c1 :: _ :: _ => c0 == 48 && (c1 == 120 || c1 == 88)
    | _ => false
  let body := if hex then bs1.drop 2 else bs1
  let base := if hex then 16 else 10
  let ms := scanMantissa base body 0 0 false false false
  if !ms.sawdigits then none
  else
    let fracExp : Int := if hex then -(4 * (ms.frac : Int)) else -(ms.frac : Int)
    match ms.rest with
    | [] =>
      if hex then none
      else if ms.underscores && !underscoreOK bs0 then none
      else some (false, ms.mant, fracExp)
    | c :: cs =>
      if !(toLowerByte c == (if hex then 112 else 101)) then none
      else
        let esign : Int := match cs with
          | d :: _ => if d == 45 then -1 else 1
          | [] => 1
        let cs1 := match cs with
          | d :: r => if d == 43 || d == 45 then r else d :: r
          | [] => []
        match cs1 with
        | [] => none
        | d0 :: _ =>
          if !isDigitByte d0 then none
          else
            match scanExpDigits cs1 0 ms.underscores with
            | none => none
            | some (e, und) =>
              if und && !underscoreOK bs0 then none
              else some (hex, ms.mant, esign * (e : Int) + fracExp)

/-- The float32 overflow threshold: the midpoint between the largest
finite float32, `(2^24 - 1) * 2^104`, and `2^128`; round-to-nearest
ties-to-even sends every magnitude ≥ this midpoint to infinity, which
is exactly when `ParseFloat(_, 32)` reports `ErrRange`. -/
def f32OverflowThreshold : Nat := 2 ^ 103 * (2 ^ 25 - 1)

/-- Whether `m * base^e` (base 2 for hex, 10 for decimal) reaches the
float32 overflow threshold; exact integer comparison, with the
exponent clamped only where the verdict is forced (see the section
comment). -/
def overflowsF32 (hex : Bool) (m : Nat) (e : Int) : Bool :=
  if m == 0 then false
  else
    let base : Nat := if hex then 2 else 10
    if 0 ≤ e then
      if 129 ≤ e then true
      else f32OverflowThreshold ≤ m * base ^ e.toNat
    else
      let k := (-e).toNat
      if m.log2 + 1 ≤ k then false
      else f32OverflowThreshold * base ^ k ≤ m

/-- Success of `strconv.ParseFloat(string(w), 32)`: a special
(`[sign]inf`, `[sign]infinity`, unsigned `nan`, case-insensitively),
or a fully consumed number that does not overflow float32. -/
def isValidFloat (w : List Nat) : Bool :=
  match w with
  | [] => false
  | b :: rest =>
    let signed := b == 43 || b == 45
    let body := if signed then rest else b :: rest
    if body.map toLowerByte == infClassKw || body.map toLowerByte == infinityClassKw then
      true
    else if !signed && (body.map toLowerByte == nanClassKw) then
      true
    else
      match readFloatModel w with
      | none => false
      | some (hex, m, e) => !overflowsF32 hex m e

/-! ## extractASCIIString -/

/-- The Go `extractASCIIString`: keep bytes while they are `< 128` and
nonzero, stopping at the first violating byte. -/
def extractASCIIString : List Nat → List Nat
  | [] => []
  | b :: bs => if b < 128 && b != 0 then b :: extractASCIIString bs else []

/-! ## Data model -/

/-- One recorded diagnostic kind (the sentinel `error` values of the Go
file; `invalidToken` carries the identifier bit whose keyword spelling
the wrapped message names). -/
inductive Err where
  | eofErr
  | invalidExpectedToken
  | invalidSintax
  | invalidFloat
  | invalidToken (ident : Nat)
  deriving DecidableEq, Repr

/-- The Go `Triangle` struct; each `float32` slot holds the source token
that parsed (see modelling conventions).  The `Attr` field is never
touched by the parser and is omitted. -/
structure Triangle where
  normal : List Nat × List Nat × List Nat
  vertex0 : List Nat × List Nat × List Nat
  vertex1 : List Nat × List Nat × List Nat
  vertex2 : List Nat × List Nat × List Nat
  deriving DecidableEq, Repr

/-- The package-level mutable variables of `count.go`:
`var name string` and `var triangles []Triangle`. -/
structure Globals where
  name : List Nat
  triangles : List Triangle
  deriving DecidableEq, Repr

/-- The Go `parser` struct, plus the package globals it writes through
(`name`, `triangles`) and the ghost `errorLog` (see modelling
conventions).  The two `bufio.Scanner`s are represented by the words
remaining on the current line and the raw lines not yet read. -/
structure ParserState where
  line : Nat
  errors : Option (Nat × Err)
  errorLog : List (Nat × Err)
  currentWord : List Nat
  currentLine : List Nat
  restWords : List (List Nat)
  restLines : List (List Nat)
  eof : Bool
  headerError : Bool
  trianglesSkipped : Bool
  name : List Nat
  triangles : List Triangle
  deriving DecidableEq, Repr

/-- The Go `addError`: `p.errors = errors.Join(fmt.Errorf("%d: %w",
p.line, msg))` — note the previous `p.errors` is not passed to `Join`,
so the stored value is replaced by a join holding exactly the one new
record.  The ghost log appends. -/
def addError (msg : Err) (p : ParserState) : ParserState :=
  { p with errors := some (p.line, msg), errorLog := p.errorLog ++ [(p.line, msg)] }

/-! ## Cursor advance (`nextWord` / `nextLine`)

The Go pair `nextLine`/`nextWord` recurses: loading a line whose word
scanner yields nothing (an empty or all-whitespace line) falls through
to loading the following line, incrementing the line counter each time.
`loadLineAux` performs that walk structurally over the unread lines,
with `k` the running line counter. -/

def loadLineAux (p : ParserState) : List (List Nat) → Nat → ParserState × Bool
  | [], k =>
    ({ p with currentLine := [], currentWord := [], restWords := [],
              restLines := [], line := k, eof := true }, false)
  | l :: ls, k =>
    match splitWords l with
    | [] => loadLineAux p ls (k + 1)
    | w :: ws =>
      ({ p with currentLine := l, currentWord := w, restWords := ws,
                restLines := ls, line := k + 1 }, true)

/-- The Go `nextLine`: read lines until one yields a word (or the
stream ends, which sets `eof` and clears the cursor). -/
def nextLine (p : ParserState) : ParserState × Bool :=
  loadLineAux p p.restLines p.line

/-- The Go `nextWord`: at `eof` fail; otherwise take the next word of
the current line, falling back to `nextLine` when the line is
exhausted. -/
def nextWord (p : ParserState) : ParserState × Bool :=
  if p.eof then (p, false)
  else
    match p.restWords with
    | w :: ws => ({ p with currentWord := w, restWords := ws }, true)
    | [] => nextLine p

/-! ## Token primitives -/

/-- The Go `isCurrentTokenIdent`. -/
def isCurrentTokenIdent (ident : Nat) (p : ParserState) : Bool :=
  identMatches ident p.currentWord

/-- The Go `consumeToken`: on a match advance past the token (its
boolean result ignores whether the advance found another word); on a
mismatch record an invalid-token error naming the expected keyword and
do not advance. -/
def consumeToken (ident : Nat) (p : ParserState) : ParserState × Bool :=
  if identMatches ident p.currentWord then ((nextWord p).1, true)
  else (addError (Err.invalidToken ident) p, false)

/-- The Go `parseFloat32`: at `eof` fail silently; on a token that
`strconv.ParseFloat` rejects record an invalid-float error and do not
advance; otherwise yield the token and advance. -/
def parseFloat32 (p : ParserState) : ParserState × Option (List Nat) :=
  if p.eof then (p, none)
  else if isValidFloat p.currentWord then ((nextWord p).1, some p.currentWord)
  else (addError Err.invalidFloat p, none)

/-- The Go `parsePoint`: three floats, short-circuiting. -/
def parsePoint (p : ParserState) : ParserState × Option (List Nat × List Nat × List Nat) :=
  match parseFloat32 p with
  | (p1, none) => (p1, none)
  | (p1, some a) =>
    match parseFloat32 p1 with
    | (p2, none) => (p2, none)
    | (p2, some b) =>
      match parseFloat32 p2 with
      | (p3, none) => (p3, none)
      | (p3, some c) => (p3, some (a, b, c))

/-- The Go `parseFacet`: the `&&`-chain
`facet normal Point outer loop vertex Point vertex Point vertex Point
endloop endfacet`, short-circuiting on the first failure; the built
triangle is yielded only on full success. -/
def parseFacet (p : ParserState) : ParserState × Option Triangle :=
  match consumeToken idFacet p with
  | (p1, false) => (p1, none)
  | (p1, true) =>
    match consumeToken idNormal p1 with
    | (p2, false) => (p2, none)
    | (p2, true) =>
      match parsePoint p2 with
      | (p3, none) => (p3, none)
      | (p3, some nrm) =>
        match consumeToken idOuter p3 with
        | (p4, false) => (p4, none)
        | (p4, true) =>
          match consumeToken idLoop p4 with
          | (p5, false) => (p5, none)
          | (p5, true) =>
            match consumeToken idVertex p5 with
            | (p6, false) => (p6, none)
            | (p6, true) =>
              match parsePoint p6 with
              | (p7, none) => (p7, none)
              | (p7, some v0) =>
                match consumeToken idVertex p7 with
                | (p8, false) => (p8, none)
                | (p8, true) =>
                  match parsePoint p8 with
                  | (p9, none) => (p9, none)
                  | (p9, some v1) =>
                    match consumeToken idVertex p9 with
                    | (p10, false) => (p10, none)
                    | (p10, true) =>
                      match parsePoint p10 with
                      | (p11, none) => (p11, none)
                      | (p11, some v2) =>
                        match consumeToken idEndloop p11 with
                        | (p12, false) => (p12, none)
                        | (p12, true) =>
                          match consumeToken idEndfacet p12 with
                          | (p13, false) => (p13, none)
                          | (p13, true) =>
                            (p13, some ⟨nrm, v0, v1, v2⟩)

/-! ## Remaining-input measure and skip-forward -/

/-- Number of words in a list of raw lines. -/
def totalWords (ls : List (List Nat)) : Nat :=
  (ls.map (fun l => (splitWords l).length)).sum

/-- Words the cursor can still deliver: the current word (present
unless `eof`), the rest of the current line, and all unread lines.
Every successful `nextWord` decreases this by exactly one, which bounds
every loop of the parser by the remaining input length. -/
def remw (p : ParserState) : Nat :=
  (if p.eof then 0 else 1) + p.restWords.length + totalWords p.restLines

/-- The Go `skipToToken`, with explicit fuel (the zero-fuel branch is
dead for the fuel bound `remw + 1` used below): advance word by word
until the current token matches `ident`, reporting which member of the
compound `facet|endsolid` mask matched, or `idNone` at end of
stream. -/
def skipToTokenF : Nat → Nat → ParserState → ParserState × Nat
  | 0, _, p => (p, idNone)
  | fuel + 1, ident, p =>
    if identMatches ident p.currentWord then
      if ident == (idFacet ||| idEndsolid) then
        if identMatches idFacet p.currentWord then (p, idFacet) else (p, idEndsolid)
      else (p, ident)
    else
      match nextWord p with
      | (p', true) => skipToTokenF fuel ident p'
      | (p', false) => (p', idNone)

/-- `skipToToken` with its sufficient fuel. -/
def skipToToken (ident : Nat) (p : ParserState) : ParserState × Nat :=
  skipToTokenF (remw p + 1) ident p

/-! ## The facet loop and Parse -/

/-- One `TriangleLoop` body step starting from a state whose current
token is `facet` (shared by both entry paths of the Go loop body):
parse the facet, appending the triangle to the package-level list on
success, or set the skipped flag and recover on failure.  Returns the
state from which the loop continues. -/
def facetStep (p : ParserState) : ParserState :=
  match parseFacet p with
  | (q, some t) => { q with triangles := q.triangles ++ [t] }
  | (q, none) => (skipToToken (idFacet ||| idEndsolid) { q with trianglesSkipped := true }).1

/-- The Go `TriangleLoop`, with explicit fuel: while the stream has not
ended and the current token is not `endsolid`, either parse a facet
(after recording an expected-token error and skipping forward when the
current token is not `facet`; `break` when that recovery finds
`endsolid` or exhausts the stream) or stop. -/
def triangleLoopF : Nat → ParserState → ParserState
  | 0, p => p
  | fuel + 1, p =>
    if p.eof || isCurrentTokenIdent idEndsolid p then p
    else if isCurrentTokenIdent idFacet p then
      triangleLoopF fuel (facetStep p)
    else
      let p1 := addError Err.invalidExpectedToken p
      let r := skipToToken (idFacet ||| idEndsolid) p1
      if r.2 == idFacet then triangleLoopF fuel (facetStep r.1)
      else r.1

/-- The facet loop with its sufficient fuel. -/
def triangleLoop (p : ParserState) : ParserState :=
  triangleLoopF (remw p + 1) p

/-- The Go `parseASCIIHeaderLine`: at `eof` record the empty-input
error; otherwise require the raw current line to begin with `"solid "`
and store the name extracted from the remainder into the package-level
`name`; in every case move to the next line before returning. -/
def parseASCIIHeaderLine (p : ParserState) : ParserState × Bool :=
  let r : ParserState × Bool :=
    if p.eof then (addError Err.eofErr p, false)
    else if !expectedASCIIHeader.isPrefixOf p.currentLine then
      (addError Err.invalidSintax p, false)
    else
      ({ p with name := extractASCIIString (p.currentLine.drop expectedASCIIHeader.length) },
       true)
  ((nextLine r.1).1, r.2)

/-- The body of `Parse` before the final success computation: the
empty-input branch, or header parsing followed by the facet loop. -/
def parsePrelude (p : ParserState) : ParserState :=
  if p.eof then addError Err.eofErr { p with headerError := true }
  else
    let r := parseASCIIHeaderLine p
    triangleLoop { r.1 with headerError := !r.2 }

/-- The Go `Parse`: run the prelude, then
`success := !p.HeaderError && !p.TrianglesSkipped && p.consumeToken(idEndsolid)`
with Go's left-to-right short-circuiting (the terminator is neither
checked nor consumed once an earlier conjunct fails). -/
def Parse (p : ParserState) : ParserState × Bool :=
  let p1 := parsePrelude p
  if p1.headerError then (p1, false)
  else if p1.trianglesSkipped then (p1, false)
  else consumeToken idEndsolid p1

/-- The Go `newParser`: zero-valued parser (line counter 0, no errors,
flags clear) whose package-global views are seeded from the current
globals, positioned by an initial `nextLine`. -/
def newParser (g : Globals) (lines : List (List Nat)) : ParserState :=
  (nextLine
    { line := 0, errors := none, errorLog := [], currentWord := [],
      currentLine := [], restWords := [], restLines := lines, eof := false,
      headerError := false, trianglesSkipped := false,
      name := g.name, triangles := g.triangles }).1

/-- The error `file.Reader` surfaces when `os.Open` fails. -/
inductive OpenErr where
  | cannotOpen
  deriving DecidableEq, Repr

/-- The Go `CountTriangles`: `none` input models a failed open of the
underlying source (return `("", -1, err)` without parsing); otherwise
run one parse — discarding `Parse`'s boolean result, exactly as the
code does — and return the package-level `name` and `len(triangles)`
with a nil error.  The `Globals` threading makes the package-level
mutable state explicit: the returned `Globals` is the process state
after the call. -/
def countTriangles (g : Globals) (input : Option (List (List Nat))) :
    Globals × List Nat × Int × Option OpenErr :=
  match input with
  | none => (g, [], -1, some OpenErr.cannotOpen)
  | some lines =>
    let p := newParser g lines
    let p' := (Parse p).1
    (⟨p'.name, p'.triangles⟩, p'.name, Int.ofNat p'.triangles.length, none)

/-! ## Progress: the cursor moves strictly forward

`Progress p q` packages the three monotonicity facts every parser
operation enjoys: the remaining word count never grows, the line number
never shrinks, and end-of-stream never clears. -/

def Progress (p q : ParserState) : Prop :=
  remw q ≤ remw p ∧ p.line ≤ q.line ∧ (p.eof = true → q.eof = true)

/-! ## Decomposing parseFacet at its first step

`parseFacetRest` names the tail of the `&&`-chain of `parseFacet`
after the leading `consumeToken(idFacet)`; it is proof infrastructure
(definitionally equal to the corresponding sub-term of `parseFacet`),
used to reason about the strict progress the leading step makes. -/

def parseFacetRest (p1 : ParserState) : ParserState × Option Triangle :=
  match consumeToken idNormal p1 with
  | (p2, false) => (p2, none)
  | (p2, true) =>
    match parsePoint p2 with
    | (p3, none) => (p3, none)
    | (p3, some nrm) =>
      match consumeToken idOuter p3 with
      | (p4, false) => (p4, none)
      | (p4, true) =>
        match consumeToken idLoop p4 with
        | (p5, false) => (p5, none)
        | (p5, true) =>
          match consumeToken idVertex p5 with
          | (p6, false) => (p6, none)
          | (p6, true) =>
            match parsePoint p6 with
            | (p7, none) => (p7, none)
            | (p7, some v0) =>
              match consumeToken idVertex p7 with
              | (p8, false) => (p8, none)
              | (p8, true) =>
                match parsePoint p8 with
                | (p9, none) => (p9, none)
                | (p9, some v1) =>
                  match consumeToken idVertex p9 with
                  | (p10, false) => (p10, none)
                  | (p10, true) =>
                    match parsePoint p10 with
                    | (p11, none) => (p11, none)
                    | (p11, some v2) =>
                      match consumeToken idEndloop p11 with
                      | (p12, false) => (p12, none)
                      | (p12, true) =>
                        match consumeToken idEndfacet p12 with
                        | (p13, false) => (p13, none)
                        | (p13, true) =>
                          (p13, some ⟨nrm, v0, v1, v2⟩)

/-! ## Canonical well-formed input, parametrically

The grammar of spec §6: a facet block is the canonical seven-line
layout; its twelve coordinate slots are arbitrary word tokens accepted
by the float parser. -/

/-- Three coordinate tokens of one point. -/
structure PointTok where
  x : List Nat
  y : List Nat
  z : List Nat
  deriving DecidableEq, Repr

/-- The three tokens are words (nonempty, no whitespace) that
`strconv.ParseFloat` accepts. -/
def pointOK (pt : PointTok) : Bool :=
  isWordTok pt.x && isValidFloat pt.x &&
  isWordTok pt.y && isValidFloat pt.y &&
  isWordTok pt.z && isValidFloat pt.z

/-- The coordinate content of one canonical facet block. -/
structure FacetBlock where
  normal : PointTok
  v0 : PointTok
  v1 : PointTok
  v2 : PointTok
  deriving DecidableEq, Repr

def facetBlockOK (b : FacetBlock) : Bool :=
  pointOK b.normal && pointOK b.v0 && pointOK b.v1 && pointOK b.v2

/-- Lines 2–7 of a canonical facet block. -/
def facetTailLines (b : FacetBlock) : List (List Nat) :=
  [mkLine [outerKw, loopKw],
   mkLine [vertexKw, b.v0.x, b.v0.y, b.v0.z],
   mkLine [vertexKw, b.v1.x, b.v1.y, b.v1.z],
   mkLine [vertexKw, b.v2.x, b.v2.y, b.v2.z],
   endloopKw,
   endfacetKw]

/-- The seven lines of a canonical facet block. -/
def facetLines (b : FacetBlock) : List (List Nat) :=
  mkLine [facetKw, normalKw, b.normal.x, b.normal.y, b.normal.z] :: facetTailLines b

/-- The triangle a successful parse of the block produces. -/
def mkTri (b : FacetBlock) : Triangle :=
  ⟨(b.normal.x, b.normal.y, b.normal.z),
   (b.v0.x, b.v0.y, b.v0.z),
   (b.v1.x, b.v1.y, b.v1.z),
   (b.v2.x, b.v2.y, b.v2.z)⟩

/-- The concatenated lines of a list of facet blocks. -/
def blocksLines : List FacetBlock → List (List Nat)
  | [] => []
  | b :: bs => facetLines b ++ blocksLines bs

/-- A fully well-formed input: `solid <name>` header, the blocks, and
the `endsolid` terminator line. -/
def wfInput (nm : List Nat) (bs : List FacetBlock) : List (List Nat) :=
  (expectedASCIIHeader ++ nm) :: (blocksLines bs ++ [endsolidKw])

/-- A parser state written out field by field (proof infrastructure:
positions the cursor explicitly). -/
def cursorState (nm : List Nat) (tr : List Triangle) (lg : List (Nat × Err))
    (er : Option (Nat × Err)) (hE hS : Bool) (k : Nat)
    (cw cl : List Nat) (rw L : List (List Nat)) (eofF : Bool) : ParserState :=
  ⟨k, er, lg, cw, cl, rw, L, eofF, hE, hS, nm, tr⟩

/-- The state of the parser positioned at the first word of a canonical
facet block whose remaining input after the block is `L`. -/
def blockState (nm : List Nat) (tr : List Triangle) (lg : List (Nat × Err))
    (er : Option (Nat × Err)) (hE hS : Bool) (k : Nat) (b : FacetBlock)
    (L : List (List Nat)) : ParserState :=
  cursorState nm tr lg er hE hS k facetKw
    (mkLine [facetKw, normalKw, b.normal.x, b.normal.y, b.normal.z])
    [normalKw, b.normal.x, b.normal.y, b.normal.z]
    (facetTailLines b ++ L) false

/-- The coordinate content of the facet block of `demoFile`. -/
def demoBlock : FacetBlock :=
  ⟨⟨[48], [48], [49]⟩, ⟨[48], [48], [48]⟩, ⟨[49], [48], [48]⟩, ⟨[48], [49], [48]⟩⟩

/-! ## Malformed facet blocks (spec §8: corrupted keyword, non-numeric
coordinate) -/

/-- A well-formed one-triangle file: `solid cube`, one canonical facet
block with coordinates 0/1, `endsolid`. -/
def demoFile : List (List Nat) :=
  [expectedASCIIHeader ++ [99, 117, 98, 101],
   mkLine [facetKw, normalKw, [48], [48], [49]],
   mkLine [outerKw, loopKw],
   mkLine [vertexKw, [48], [48], [48]],
   mkLine [vertexKw, [49], [48], [48]],
   mkLine [vertexKw, [48], [49], [48]],
   endloopKw,
   endfacetKw,
   endsolidKw]

/-- A two-line file `hello` / `world`: its parse records a
header-syntax error on line 1 and an expected-token error on line 2. -/
def helloWorldFile : List (List Nat) :=
  [[104, 101, 108, 108, 111], [119, 111, 114, 108, 100]]

/-- A file whose header is broken but whose terminator is present:
`hello` / `endsolid`. -/
def helloEndFile : List (List Nat) :=
  [[104, 101, 108, 108, 111], endsolidKw]

/-! ## Word-splitting lemmas -/

theorem splitWordsAux_nonspace (w : List Nat) (h : w.all (fun b => !isSpaceByte b) = true) :
    ∀ rest acc, splitWordsAux (w ++ rest) acc = splitWordsAux rest (w.reverse ++ acc) := by
  induction w with
  | nil => intro rest acc; simp
  | cons b w ih =>
    intro rest acc
    simp only [List.all_cons, Bool.and_eq_true, Bool.not_eq_true'] at h
    simp only [List.cons_append, splitWordsAux, h.1, Bool.false_eq_true, if_false,
      List.append_eq]
    rw [ih (by simpa using h.2)]
    simp

theorem splitWords_word_space (w : List Nat) (rest : List Nat) (h : isWordTok w = true) :
    splitWords (w ++ 32 :: rest) = w :: splitWords rest := by
  simp only [isWordTok, Bool.and_eq_true, Bool.not_eq_true'] at h
  have hw : w ≠ [] := by
    simpa [List.isEmpty_iff] using h.1
  simp only [splitWords, splitWordsAux_nonspace w h.2]
  simp only [splitWordsAux, isSpaceByte]
  simp [hw]

theorem splitWords_single (w : List Nat) (h : isWordTok w = true) :
    splitWords w = [w] := by
  simp only [isWordTok, Bool.and_eq_true, Bool.not_eq_true'] at h
  have hw : w ≠ [] := by simpa [List.isEmpty_iff] using h.1
  have := splitWordsAux_nonspace w h.2 [] []
  simp only [List.append_nil] at this
  simp only [splitWords, this, splitWordsAux]
  simp [hw]

theorem splitWords_mkLine (ws : List (List Nat)) (h : ∀ w ∈ ws, isWordTok w = true) :
    splitWords (mkLine ws) = ws := by
  induction ws with
  | nil => simp [mkLine, splitWords, splitWordsAux]
  | cons w ws ih =>
    cases ws with
    | nil => exact splitWords_single w (h w (by simp))
    | cons w2 ws' =>
      rw [mkLine, splitWords_word_space w _ (h w (by simp))]
      rw [ih (fun x hx => h x (by simp [hx]))]

/-! ## extractASCIIString characterisation -/

theorem extractASCIIString_eq_takeWhile (bs : List Nat) :
    extractASCIIString bs = bs.takeWhile (fun b => decide (b < 128) && b != 0) := by
  induction bs with
  | nil => rfl
  | cons b bs ih =>
    by_cases hb : b < 128 ∧ b ≠ 0
    · have hne : (b != 0) = true := by simp [hb.2]
      simp [extractASCIIString, List.takeWhile, hb.1, hb.2, hne, ih]
    · rw [Classical.not_and_iff_or_not_not] at hb
      rcases hb with hb | hb
      · simp [extractASCIIString, List.takeWhile, hb]
      · simp only [Ne, Classical.not_not] at hb
        subst hb
        simp [extractASCIIString, List.takeWhile]

theorem Progress.rfl (p : ParserState) : Progress p p :=
  ⟨le_refl _, le_refl _, fun h => h⟩

theorem Progress.trans {p q r : ParserState} (h1 : Progress p q) (h2 : Progress q r) :
    Progress p r :=
  ⟨le_trans h2.1 h1.1, le_trans h1.2.1 h2.2.1, fun h => h2.2.2 (h1.2.2 h)⟩

theorem progress_addError (e : Err) (p : ParserState) : Progress p (addError e p) :=
  ⟨le_refl _, le_refl _, fun h => h⟩

theorem loadLineAux_remw_lt (ls : List (List Nat)) (k : Nat) (p : ParserState) :
    remw (loadLineAux p ls k).1 < 1 + totalWords ls := by
  induction ls generalizing k with
  | nil => simp [loadLineAux, remw, totalWords]
  | cons l ls ih =>
    rw [loadLineAux]
    have htw : totalWords (l :: ls) = (splitWords l).length + totalWords ls := by
      simp [totalWords]
    cases hs : splitWords l with
    | nil =>
      rw [htw, hs]
      simpa using ih (k + 1)
    | cons w ws =>
      rw [htw, hs]
      simp only [remw]
      cases p.eof <;> simp <;> omega

theorem loadLineAux_line (ls : List (List Nat)) (k : Nat) (p : ParserState) :
    k ≤ (loadLineAux p ls k).1.line := by
  induction ls generalizing k with
  | nil => simp [loadLineAux]
  | cons l ls ih =>
    rw [loadLineAux]
    cases hs : splitWords l with
    | nil => exact le_trans (Nat.le_succ k) (ih (k + 1))
    | cons w ws => simp

theorem loadLineAux_eof (ls : List (List Nat)) (k : Nat) (p : ParserState)
    (h : p.eof = true) : (loadLineAux p ls k).1.eof = true := by
  induction ls generalizing k with
  | nil => simp [loadLineAux]
  | cons l ls ih =>
    rw [loadLineAux]
    cases hs : splitWords l with
    | nil => exact ih (k + 1)
    | cons w ws => simpa using h

theorem loadLineAux_false_eof (ls : List (List Nat)) (k : Nat) (p : ParserState)
    (h : (loadLineAux p ls k).2 = false) : (loadLineAux p ls k).1.eof = true := by
  induction ls generalizing k with
  | nil => simp [loadLineAux]
  | cons l ls ih =>
    rw [loadLineAux] at h ⊢
    cases hs : splitWords l with
    | nil => rw [hs] at h; exact ih (k + 1) h
    | cons w ws => rw [hs] at h; simp at h

theorem nextWord_strict (p : ParserState) (h : p.eof = false) :
    remw (nextWord p).1 < remw p := by
  rw [nextWord, h]
  simp only [Bool.false_eq_true, if_false]
  cases hw : p.restWords with
  | cons w ws => simp [remw, hw, h]
  | nil =>
    have hlt := loadLineAux_remw_lt p.restLines p.line p
    simp only [nextLine]
    calc remw (loadLineAux p p.restLines p.line).1 < 1 + totalWords p.restLines := hlt
      _ ≤ remw p := by simp [remw, h, hw]

theorem progress_nextWord (p : ParserState) : Progress p (nextWord p).1 := by
  by_cases h : p.eof = true
  · rw [nextWord, h]
    simp only [if_true]
    exact Progress.rfl p
  · rw [Bool.not_eq_true] at h
    refine ⟨le_of_lt (nextWord_strict p h), ?_, ?_⟩
    · rw [nextWord, h]
      simp only [Bool.false_eq_true, if_false]
      cases hw : p.restWords with
      | cons w ws => simp
      | nil => exact loadLineAux_line p.restLines p.line p
    · intro he; rw [he] at h; exact absurd h (by simp)

theorem nextWord_eq_of_eof (p : ParserState) (h : p.eof = true) :
    nextWord p = (p, false) := by
  rw [nextWord, h]; simp

theorem nextWord_eq_cons (p : ParserState) (w : List Nat) (ws : List (List Nat))
    (he : p.eof = false) (hw : p.restWords = w :: ws) :
    nextWord p = ({ p with currentWord := w, restWords := ws }, true) := by
  rw [nextWord, he, hw]; simp

theorem nextWord_eq_nil (p : ParserState) (he : p.eof = false) (hw : p.restWords = []) :
    nextWord p = nextLine p := by
  rw [nextWord, he, hw]; simp

theorem nextWord_false_eof (p : ParserState) (h : (nextWord p).2 = false) :
    (nextWord p).1.eof = true := by
  by_cases he : p.eof = true
  · rw [nextWord_eq_of_eof p he]; exact he
  · rw [Bool.not_eq_true] at he
    cases hw : p.restWords with
    | cons w ws =>
      rw [nextWord_eq_cons p w ws he hw] at h
      simp at h
    | nil =>
      rw [nextWord_eq_nil p he hw] at h ⊢
      exact loadLineAux_false_eof p.restLines p.line p h

theorem progress_consumeToken (i : Nat) (p : ParserState) :
    Progress p (consumeToken i p).1 := by
  rw [consumeToken]
  by_cases h : identMatches i p.currentWord = true
  · simpa [h] using progress_nextWord p
  · rw [Bool.not_eq_true] at h
    simpa [h] using progress_addError (Err.invalidToken i) p

theorem progress_parseFloat32 (p : ParserState) :
    Progress p (parseFloat32 p).1 := by
  rw [parseFloat32]
  by_cases he : p.eof = true
  · simpa [he] using Progress.rfl p
  · rw [Bool.not_eq_true] at he
    by_cases hv : isValidFloat p.currentWord = true
    · simpa [he, hv] using progress_nextWord p
    · rw [Bool.not_eq_true] at hv
      simpa [he, hv] using progress_addError Err.invalidFloat p

theorem progress_parsePoint (p : ParserState) :
    Progress p (parsePoint p).1 := by
  have h1 := progress_parseFloat32 p
  rcases e1 : parseFloat32 p with ⟨p1, r1⟩
  rw [e1] at h1
  cases r1 with
  | none => simpa [parsePoint, e1] using h1
  | some a =>
    have h2 := progress_parseFloat32 p1
    rcases e2 : parseFloat32 p1 with ⟨p2, r2⟩
    rw [e2] at h2
    cases r2 with
    | none => simpa [parsePoint, e1, e2] using h1.trans h2
    | some b =>
      have h3 := progress_parseFloat32 p2
      rcases e3 : parseFloat32 p2 with ⟨p3, r3⟩
      rw [e3] at h3
      cases r3 with
      | none => simpa [parsePoint, e1, e2, e3] using (h1.trans h2).trans h3
      | some c => simpa [parsePoint, e1, e2, e3] using (h1.trans h2).trans h3

theorem parseFacet_decomp (p : ParserState) :
    parseFacet p =
      match consumeToken idFacet p with
      | (p1, false) => (p1, none)
      | (p1, true) => parseFacetRest p1 := rfl

theorem progress_parseFacetRest (p1 : ParserState) :
    Progress p1 (parseFacetRest p1).1 := by
  have h2 := progress_consumeToken idNormal p1
  rcases e2 : consumeToken idNormal p1 with ⟨p2, b2⟩
  rw [e2] at h2
  cases b2 with
  | false => simpa [parseFacetRest, e2] using h2
  | true =>
  have h3 := progress_parsePoint p2
  rcases e3 : parsePoint p2 with ⟨p3, r3⟩
  rw [e3] at h3
  have h23 := h2.trans h3
  cases r3 with
  | none => simpa [parseFacetRest, e2, e3] using h23
  | some nrm =>
  have h4 := progress_consumeToken idOuter p3
  rcases e4 : consumeToken idOuter p3 with ⟨p4, b4⟩
  rw [e4] at h4
  have h24 := h23.trans h4
  cases b4 with
  | false => simpa [parseFacetRest, e2, e3, e4] using h24
  | true =>
  have h5 := progress_consumeToken idLoop p4
  rcases e5 : consumeToken idLoop p4 with ⟨p5, b5⟩
  rw [e5] at h5
  have h25 := h24.trans h5
  cases b5 with
  | false => simpa [parseFacetRest, e2, e3, e4, e5] using h25
  | true =>
  have h6 := progress_consumeToken idVertex p5
  rcases e6 : consumeToken idVertex p5 with ⟨p6, b6⟩
  rw [e6] at h6
  have h26 := h25.trans h6
  cases b6 with
  | false => simpa [parseFacetRest, e2, e3, e4, e5, e6] using h26
  | true =>
  have h7 := progress_parsePoint p6
  rcases e7 : parsePoint p6 with ⟨p7, r7⟩
  rw [e7] at h7
  have h27 := h26.trans h7
  cases r7 with
  | none => simpa [parseFacetRest, e2, e3, e4, e5, e6, e7] using h27
  | some v0 =>
  have h8 := progress_consumeToken idVertex p7
  rcases e8 : consumeToken idVertex p7 with ⟨p8, b8⟩
  rw [e8] at h8
  have h28 := h27.trans h8
  cases b8 with
  | false => simpa [parseFacetRest, e2, e3, e4, e5, e6, e7, e8] using h28
  | true =>
  have h9 := progress_parsePoint p8
  rcases e9 : parsePoint p8 with ⟨p9, r9⟩
  rw [e9] at h9
  have h29 := h28.trans h9
  cases r9 with
  | none => simpa [parseFacetRest, e2, e3, e4, e5, e6, e7, e8, e9] using h29
  | some v1 =>
  have h10 := progress_consumeToken idVertex p9
  rcases e10 : consumeToken idVertex p9 with ⟨p10, b10⟩
  rw [e10] at h10
  have h30 := h29.trans h10
  cases b10 with
  | false => simpa [parseFacetRest, e2, e3, e4, e5, e6, e7, e8, e9, e10] using h30
  | true =>
  have h11 := progress_parsePoint p10
  rcases e11 : parsePoint p10 with ⟨p11, r11⟩
  rw [e11] at h11
  have h31 := h30.trans h11
  cases r11 with
  | none => simpa [parseFacetRest, e2, e3, e4, e5, e6, e7, e8, e9, e10, e11] using h31
  | some v2 =>
  have h12 := progress_consumeToken idEndloop p11
  rcases e12 : consumeToken idEndloop p11 with ⟨p12, b12⟩
  rw [e12] at h12
  have h32 := h31.trans h12
  cases b12 with
  | false =>
    simpa [parseFacetRest, e2, e3, e4, e5, e6, e7, e8, e9, e10, e11, e12] using h32
  | true =>
  have h13 := progress_consumeToken idEndfacet p12
  rcases e13 : consumeToken idEndfacet p12 with ⟨p13, b13⟩
  rw [e13] at h13
  have h33 := h32.trans h13
  cases b13 with
  | false =>
    simpa [parseFacetRest, e2, e3, e4, e5, e6, e7, e8, e9, e10, e11, e12, e13] using h33
  | true =>
    simpa [parseFacetRest, e2, e3, e4, e5, e6, e7, e8, e9, e10, e11, e12, e13] using h33

theorem progress_parseFacet (p : ParserState) :
    Progress p (parseFacet p).1 := by
  rw [parseFacet_decomp]
  have h1 := progress_consumeToken idFacet p
  rcases e1 : consumeToken idFacet p with ⟨p1, b1⟩
  rw [e1] at h1
  cases b1 with
  | false => exact h1
  | true => exact h1.trans (progress_parseFacetRest p1)

theorem parseFacet_strict (p : ParserState)
    (h : identMatches idFacet p.currentWord = true) (he : p.eof = false) :
    remw (parseFacet p).1 < remw p := by
  rw [parseFacet_decomp]
  have hct : consumeToken idFacet p = ((nextWord p).1, true) := by
    rw [consumeToken, h]; simp
  rw [hct]
  exact lt_of_le_of_lt (progress_parseFacetRest (nextWord p).1).1 (nextWord_strict p he)

/-! ## skipToToken: fuel independence, unfolding law, progress, result -/

theorem progress_skipToTokenF (fuel ident : Nat) :
    ∀ p, Progress p (skipToTokenF fuel ident p).1 := by
  induction fuel with
  | zero => intro p; exact Progress.rfl p
  | succ fuel ih =>
    intro p
    rw [skipToTokenF]
    by_cases h : identMatches ident p.currentWord = true
    · rw [h]
      simp only [if_true]
      split
      · split <;> exact Progress.rfl p
      · exact Progress.rfl p
    · rw [Bool.not_eq_true] at h
      rw [h]
      simp only [Bool.false_eq_true, if_false]
      have hp := progress_nextWord p
      rcases e : nextWord p with ⟨p', b⟩
      rw [e] at hp
      cases b with
      | false => exact hp
      | true => exact hp.trans (ih p')

theorem progress_skipToToken (ident : Nat) (p : ParserState) :
    Progress p (skipToToken ident p).1 :=
  progress_skipToTokenF (remw p + 1) ident p

theorem skipToTokenF_congr (ident : Nat) :
    ∀ f1 f2 p, remw p < f1 → remw p < f2 →
      skipToTokenF f1 ident p = skipToTokenF f2 ident p := by
  intro f1
  induction f1 with
  | zero => intro f2 p h1 _; omega
  | succ f1 ih =>
    intro f2 p h1 h2
    cases f2 with
    | zero => omega
    | succ f2 =>
      rw [skipToTokenF, skipToTokenF]
      by_cases h : identMatches ident p.currentWord = true
      · rw [h]; simp
      · rw [Bool.not_eq_true] at h
        rw [h]
        simp only [Bool.false_eq_true, if_false]
        rcases e : nextWord p with ⟨p', b⟩
        cases b with
        | false => rfl
        | true =>
          have hlt : remw p' < remw p := by
            have := nextWord_strict p ?_
            · rwa [e] at this
            · by_contra hc
              rw [Bool.not_eq_false] at hc
              rw [nextWord_eq_of_eof p hc] at e
              simp at e
          exact ih f2 p' (by omega) (by omega)

theorem skipToToken_eq (ident : Nat) (p : ParserState) :
    skipToToken ident p =
      if identMatches ident p.currentWord then
        if ident == (idFacet ||| idEndsolid) then
          if identMatches idFacet p.currentWord then (p, idFacet) else (p, idEndsolid)
        else (p, ident)
      else
        match nextWord p with
        | (p', true) => skipToToken ident p'
        | (p', false) => (p', idNone) := by
  rw [skipToToken, skipToTokenF]
  by_cases h : identMatches ident p.currentWord = true
  · rw [h]; simp
  · rw [Bool.not_eq_true] at h
    rw [h]
    simp only [Bool.false_eq_true, if_false]
    rcases e : nextWord p with ⟨p', b⟩
    cases b with
    | false => rfl
    | true =>
      have hlt : remw p' < remw p := by
        have := nextWord_strict p ?_
        · rwa [e] at this
        · by_contra hc
          rw [Bool.not_eq_false] at hc
          rw [nextWord_eq_of_eof p hc] at e
          simp at e
      exact skipToTokenF_congr ident (remw p) (remw p' + 1) p' (by omega) (by omega)

theorem skipToToken_strict (p : ParserState)
    (h : identMatches (idFacet ||| idEndsolid) p.currentWord = false)
    (he : p.eof = false) :
    remw (skipToToken (idFacet ||| idEndsolid) p).1 < remw p := by
  rw [skipToToken_eq, h]
  simp only [Bool.false_eq_true, if_false]
  have hs := nextWord_strict p he
  rcases e : nextWord p with ⟨p', b⟩
  rw [e] at hs
  cases b with
  | false => exact hs
  | true => exact lt_of_le_of_lt (progress_skipToToken _ p').1 hs

/-- A word that `identMatches` neither `idFacet` nor `idEndsolid` fails
the compound mask too. -/
theorem identMatches_compound (w : List Nat)
    (hf : (w == facetKw) = false) (he : (w == endsolidKw) = false) :
    identMatches (idFacet ||| idEndsolid) w = false := by
  simp only [identMatches, idSolid, idFacet, idNormal, idOuter, idLoop, idVertex,
    idEndloop, idEndfacet, idEndsolid]
  norm_num
  exact ⟨by simpa using hf, by simpa using he⟩

/-! ## The facet loop: progress, fuel independence, unfolding law -/

theorem progress_facetStep (p : ParserState) : Progress p (facetStep p) := by
  rw [facetStep]
  have h1 := progress_parseFacet p
  rcases e1 : parseFacet p with ⟨q, r⟩
  rw [e1] at h1
  cases r with
  | some t => exact h1
  | none =>
    have h2 := progress_skipToToken (idFacet ||| idEndsolid) { q with trianglesSkipped := true }
    exact h1.trans h2

theorem facetStep_strict (p : ParserState)
    (h : identMatches idFacet p.currentWord = true) (he : p.eof = false) :
    remw (facetStep p) < remw p := by
  rw [facetStep]
  have h1 := parseFacet_strict p h he
  rcases e1 : parseFacet p with ⟨q, r⟩
  rw [e1] at h1
  cases r with
  | some t => exact h1
  | none =>
    exact lt_of_le_of_lt
      (progress_skipToToken (idFacet ||| idEndsolid) { q with trianglesSkipped := true }).1 h1

theorem triangleLoopF_congr :
    ∀ f1 f2 p, remw p < f1 → remw p < f2 → triangleLoopF f1 p = triangleLoopF f2 p := by
  intro f1
  induction f1 with
  | zero => intro f2 p h1 _; omega
  | succ f1 ih =>
    intro f2 p h1 h2
    cases f2 with
    | zero => omega
    | succ f2 =>
      rw [triangleLoopF, triangleLoopF]
      by_cases hg : (p.eof || isCurrentTokenIdent idEndsolid p) = true
      · rw [hg]; simp
      · rw [Bool.not_eq_true] at hg
        rw [hg]
        simp only [Bool.false_eq_true, if_false]
        have heof : p.eof = false := by
          rcases Bool.or_eq_false_iff.mp hg with ⟨h1', _⟩; exact h1'
        have hnes : isCurrentTokenIdent idEndsolid p = false := by
          rcases Bool.or_eq_false_iff.mp hg with ⟨_, h2'⟩; exact h2'
        by_cases hf : isCurrentTokenIdent idFacet p = true
        · rw [hf]
          simp only [if_true]
          have hs := facetStep_strict p hf heof
          exact ih f2 (facetStep p) (by omega) (by omega)
        · rw [Bool.not_eq_true] at hf
          rw [hf]
          simp only [Bool.false_eq_true, if_false]
          set p1 := addError Err.invalidExpectedToken p with hp1
          have hcw : identMatches (idFacet ||| idEndsolid) p1.currentWord = false := by
            have : p1.currentWord = p.currentWord := rfl
            rw [this]
            apply identMatches_compound
            · simpa [isCurrentTokenIdent, identMatches, idFacet, idSolid] using hf
            · simpa [isCurrentTokenIdent, identMatches, idEndsolid, idSolid, idFacet,
                idNormal, idOuter, idLoop, idVertex, idEndloop, idEndfacet] using hnes
          have hre : remw p1 = remw p := rfl
          have he1 : p1.eof = false := heof
          have hsk := skipToToken_strict p1 hcw he1
          rcases e : skipToToken (idFacet ||| idEndsolid) p1 with ⟨p2, r⟩
          rw [e] at hsk
          rw [hre] at hsk
          have hsk2 : remw p2 < remw p := hsk
          by_cases hr : (r == idFacet) = true
          · rw [hr]
            simp only [if_true]
            have hm : remw (facetStep p2) ≤ remw p2 := (progress_facetStep p2).1
            exact ih f2 (facetStep p2) (by omega) (by omega)
          · rw [Bool.not_eq_true] at hr
            rw [hr]
            simp

theorem triangleLoop_eq (p : ParserState) :
    triangleLoop p =
      if p.eof || isCurrentTokenIdent idEndsolid p then p
      else if isCurrentTokenIdent idFacet p then
        triangleLoop (facetStep p)
      else
        let p1 := addError Err.invalidExpectedToken p
        let r := skipToToken (idFacet ||| idEndsolid) p1
        if r.2 == idFacet then triangleLoop (facetStep r.1)
        else r.1 := by
  rw [triangleLoop, triangleLoopF]
  by_cases hg : (p.eof || isCurrentTokenIdent idEndsolid p) = true
  · rw [hg]; simp
  · rw [Bool.not_eq_true] at hg
    rw [hg]
    simp only [Bool.false_eq_true, if_false]
    have heof : p.eof = false := by
      rcases Bool.or_eq_false_iff.mp hg with ⟨h1', _⟩; exact h1'
    have hnes : isCurrentTokenIdent idEndsolid p = false := by
      rcases Bool.or_eq_false_iff.mp hg with ⟨_, h2'⟩; exact h2'
    by_cases hf : isCurrentTokenIdent idFacet p = true
    · rw [hf]
      simp only [if_true]
      have hs := facetStep_strict p hf heof
      exact triangleLoopF_congr (remw p) (remw (facetStep p) + 1) (facetStep p)
        (by omega) (by omega)
    · rw [Bool.not_eq_true] at hf
      rw [hf]
      simp only [Bool.false_eq_true, if_false]
      set p1 := addError Err.invalidExpectedToken p with hp1
      have hcw : identMatches (idFacet ||| idEndsolid) p1.currentWord = false := by
        have : p1.currentWord = p.currentWord := rfl
        rw [this]
        apply identMatches_compound
        · simpa [isCurrentTokenIdent, identMatches, idFacet, idSolid] using hf
        · simpa [isCurrentTokenIdent, identMatches, idEndsolid, idSolid, idFacet,
            idNormal, idOuter, idLoop, idVertex, idEndloop, idEndfacet] using hnes
      have hre : remw p1 = remw p := rfl
      have hsk := skipToToken_strict p1 hcw heof
      rcases e : skipToToken (idFacet ||| idEndsolid) p1 with ⟨p2, r⟩
      rw [e] at hsk
      rw [hre] at hsk
      have hsk2 : remw p2 < remw p := hsk
      by_cases hr : (r == idFacet) = true
      · rw [hr]
        simp only [if_true]
        have hm : remw (facetStep p2) ≤ remw p2 := (progress_facetStep p2).1
        exact triangleLoopF_congr (remw p) (remw (facetStep p2) + 1) (facetStep p2)
          (by omega) (by omega)
      · rw [Bool.not_eq_true] at hr
        rw [hr]
        simp

theorem progress_triangleLoopF (fuel : Nat) :
    ∀ p, Progress p (triangleLoopF fuel p) := by
  induction fuel with
  | zero => intro p; exact Progress.rfl p
  | succ fuel ih =>
    intro p
    rw [triangleLoopF]
    by_cases hg : (p.eof || isCurrentTokenIdent idEndsolid p) = true
    · rw [hg]; exact Progress.rfl p
    · rw [Bool.not_eq_true] at hg
      rw [hg]
      simp only [Bool.false_eq_true, if_false]
      by_cases hf : isCurrentTokenIdent idFacet p = true
      · rw [hf]
        simp only [if_true]
        exact (progress_facetStep p).trans (ih (facetStep p))
      · rw [Bool.not_eq_true] at hf
        rw [hf]
        simp only [Bool.false_eq_true, if_false]
        have hp1 := progress_addError Err.invalidExpectedToken p
        have hp2 := progress_skipToToken (idFacet ||| idEndsolid)
          (addError Err.invalidExpectedToken p)
        rcases e : skipToToken (idFacet ||| idEndsolid)
          (addError Err.invalidExpectedToken p) with ⟨p2, r⟩
        rw [e] at hp2
        by_cases hr : (r == idFacet) = true
        · rw [hr]
          simp only [if_true]
          exact ((hp1.trans hp2).trans (progress_facetStep p2)).trans (ih (facetStep p2))
        · rw [Bool.not_eq_true] at hr
          rw [hr]
          simpa using hp1.trans hp2

theorem progress_triangleLoop (p : ParserState) : Progress p (triangleLoop p) :=
  progress_triangleLoopF (remw p + 1) p

/-! ## Non-cursor fields survive cursor movement -/

theorem loadLineAux_persist (ls : List (List Nat)) (k : Nat) (p : ParserState) :
    (loadLineAux p ls k).1.name = p.name ∧
    (loadLineAux p ls k).1.errors = p.errors ∧
    (loadLineAux p ls k).1.errorLog = p.errorLog ∧
    (loadLineAux p ls k).1.headerError = p.headerError ∧
    (loadLineAux p ls k).1.trianglesSkipped = p.trianglesSkipped ∧
    (loadLineAux p ls k).1.triangles = p.triangles := by
  induction ls generalizing k with
  | nil => simp [loadLineAux]
  | cons l ls ih =>
    rw [loadLineAux]
    cases hs : splitWords l with
    | nil => exact ih (k + 1)
    | cons w ws => simp

theorem nextWord_persist (p : ParserState) :
    (nextWord p).1.name = p.name ∧
    (nextWord p).1.errors = p.errors ∧
    (nextWord p).1.errorLog = p.errorLog ∧
    (nextWord p).1.headerError = p.headerError ∧
    (nextWord p).1.trianglesSkipped = p.trianglesSkipped ∧
    (nextWord p).1.triangles = p.triangles := by
  by_cases he : p.eof = true
  · rw [nextWord_eq_of_eof p he]
    exact ⟨rfl, rfl, rfl, rfl, rfl, rfl⟩
  · rw [Bool.not_eq_true] at he
    cases hw : p.restWords with
    | cons w ws => rw [nextWord_eq_cons p w ws he hw]; simp
    | nil => rw [nextWord_eq_nil p he hw]; exact loadLineAux_persist p.restLines p.line p

/-! ## Progress through the header, the prelude and Parse -/

theorem loadLineAux_remw_le (ls : List (List Nat)) (k : Nat) (p : ParserState) :
    remw (loadLineAux p ls k).1 ≤ totalWords ls := by
  induction ls generalizing k with
  | nil => simp [loadLineAux, remw, totalWords]
  | cons l ls ih =>
    rw [loadLineAux]
    have htw : totalWords (l :: ls) = (splitWords l).length + totalWords ls := by
      simp [totalWords]
    cases hs : splitWords l with
    | nil =>
      rw [htw, hs]
      simpa using ih (k + 1)
    | cons w ws =>
      rw [htw, hs]
      simp only [remw]
      cases p.eof <;> simp <;> omega

theorem progress_nextLine (p : ParserState) : Progress p (nextLine p).1 := by
  refine ⟨?_, loadLineAux_line p.restLines p.line p, loadLineAux_eof p.restLines p.line p⟩
  calc remw (loadLineAux p p.restLines p.line).1
      ≤ totalWords p.restLines := loadLineAux_remw_le p.restLines p.line p
    _ ≤ remw p := by
        show totalWords p.restLines ≤
          (if p.eof then 0 else 1) + p.restWords.length + totalWords p.restLines
        exact Nat.le_add_left _ _

/-- Any state sharing the cursor of `p` progresses to the state after a
`nextLine` from it. -/
theorem progress_nextLine_of_same_cursor (p q : ParserState)
    (h1 : q.restWords = p.restWords) (h2 : q.restLines = p.restLines)
    (h3 : q.eof = p.eof) (h4 : q.line = p.line) :
    Progress p (nextLine q).1 := by
  refine Progress.trans (q := q) ⟨?_, ?_, ?_⟩ (progress_nextLine q)
  · simp [remw, h1, h2, h3]
  · exact le_of_eq h4.symm
  · intro h; rw [h3, h]

theorem progress_parseASCIIHeaderLine (p : ParserState) :
    Progress p (parseASCIIHeaderLine p).1 := by
  rw [parseASCIIHeaderLine]
  by_cases he : p.eof = true
  · simp only [he, if_true]
    exact progress_nextLine_of_same_cursor p _ rfl rfl (by simp [addError, he]) rfl
  · rw [Bool.not_eq_true] at he
    by_cases hp : expectedASCIIHeader.isPrefixOf p.currentLine = true
    · simp only [he, hp, Bool.false_eq_true, if_false, Bool.not_true, if_true]
      exact progress_nextLine_of_same_cursor p _ rfl rfl (by simp [he]) rfl
    · rw [Bool.not_eq_true] at hp
      simp only [he, hp, Bool.false_eq_true, if_false, Bool.not_false, if_true]
      exact progress_nextLine_of_same_cursor p _ rfl rfl (by simp [addError, he]) rfl

theorem progress_parsePrelude (p : ParserState) : Progress p (parsePrelude p) := by
  rw [parsePrelude]
  by_cases he : p.eof = true
  · simp only [he, if_true]
    refine ⟨?_, le_refl _, fun _ => rfl⟩
    simp [remw, addError, he]
  · rw [Bool.not_eq_true] at he
    simp only [he, Bool.false_eq_true, if_false]
    have h1 := progress_parseASCIIHeaderLine p
    refine (h1.trans ?_).trans (progress_triangleLoop _)
    exact ⟨le_refl _, le_refl _, fun h => h⟩

theorem progress_Parse (p : ParserState) : Progress p (Parse p).1 := by
  rw [Parse]
  by_cases h1 : (parsePrelude p).headerError = true
  · simp only [h1, if_true]
    exact progress_parsePrelude p
  · rw [Bool.not_eq_true] at h1
    simp only [h1, Bool.false_eq_true, if_false]
    by_cases h2 : (parsePrelude p).trianglesSkipped = true
    · simp only [h2, if_true]
      exact progress_parsePrelude p
    · rw [Bool.not_eq_true] at h2
      simp only [h2, Bool.false_eq_true, if_false]
      exact (progress_parsePrelude p).trans (progress_consumeToken idEndsolid _)

/-! ## skipToToken result characterisation -/

theorem identMatches_facet_eq (w : List Nat) :
    identMatches idFacet w = (w == facetKw) := by
  simp only [identMatches, idSolid, idFacet, idNormal, idOuter, idLoop, idVertex,
    idEndloop, idEndfacet, idEndsolid]
  norm_num

theorem identMatches_endsolid_eq (w : List Nat) :
    identMatches idEndsolid w = (w == endsolidKw) := by
  simp only [identMatches, idSolid, idFacet, idNormal, idOuter, idLoop, idVertex,
    idEndloop, idEndfacet, idEndsolid]
  norm_num

theorem identMatches_compound_eq (w : List Nat) :
    identMatches (idFacet ||| idEndsolid) w = (w == facetKw || w == endsolidKw) := rfl

theorem skipToToken_correct_aux :
    ∀ n p, remw p < n →
      (((skipToToken (idFacet ||| idEndsolid) p).2 = idFacet →
         (skipToToken (idFacet ||| idEndsolid) p).1.currentWord = facetKw) ∧
       ((skipToToken (idFacet ||| idEndsolid) p).2 = idEndsolid →
         (skipToToken (idFacet ||| idEndsolid) p).1.currentWord = endsolidKw) ∧
       ((skipToToken (idFacet ||| idEndsolid) p).2 = idNone →
         (skipToToken (idFacet ||| idEndsolid) p).1.eof = true)) := by
  intro n
  induction n with
  | zero => intro p hp; exact absurd hp (by omega)
  | succ n ih =>
    intro p hp
    rw [skipToToken_eq]
    by_cases hm : identMatches (idFacet ||| idEndsolid) p.currentWord = true
    · rw [hm]
      simp only [if_true]
      have hcm : ((idFacet ||| idEndsolid) == (idFacet ||| idEndsolid)) = true := by decide
      rw [hcm]
      simp only [if_true]
      by_cases hf : identMatches idFacet p.currentWord = true
      · rw [hf]
        simp only [if_true]
        refine ⟨fun _ => ?_, fun h => ?_, fun h => ?_⟩
        · rw [identMatches_facet_eq] at hf
          exact beq_iff_eq.mp hf
        · exact absurd h (by simp [idFacet, idEndsolid])
        · exact absurd h (by simp [idFacet, idNone])
      · rw [Bool.not_eq_true] at hf
        rw [hf]
        simp only [Bool.false_eq_true, if_false]
        refine ⟨fun h => ?_, fun _ => ?_, fun h => ?_⟩
        · exact absurd h (by simp [idFacet, idEndsolid])
        · rw [identMatches_compound_eq] at hm
          rw [identMatches_facet_eq] at hf
          rw [hf] at hm
          simp only [Bool.false_or] at hm
          exact beq_iff_eq.mp hm
        · exact absurd h (by simp [idEndsolid, idNone])
    · rw [Bool.not_eq_true] at hm
      rw [hm]
      simp only [Bool.false_eq_true, if_false]
      rcases e : nextWord p with ⟨p', b⟩
      cases b with
      | false =>
        refine ⟨fun h => ?_, fun h => ?_, fun _ => ?_⟩
        · exact absurd h (by simp [idNone, idFacet])
        · exact absurd h (by simp [idNone, idEndsolid])
        · have := nextWord_false_eof p (by rw [e])
          rwa [e] at this
      | true =>
        have heof : p.eof = false := by
          by_contra hc
          rw [Bool.not_eq_false] at hc
          rw [nextWord_eq_of_eof p hc] at e
          simp at e
        have hlt : remw p' < remw p := by
          have := nextWord_strict p heof
          rwa [e] at this
        exact ih p' (by omega)

theorem skipToToken_correct (p : ParserState) :
    ((skipToToken (idFacet ||| idEndsolid) p).2 = idFacet →
      (skipToToken (idFacet ||| idEndsolid) p).1.currentWord = facetKw) ∧
    ((skipToToken (idFacet ||| idEndsolid) p).2 = idEndsolid →
      (skipToToken (idFacet ||| idEndsolid) p).1.currentWord = endsolidKw) ∧
    ((skipToToken (idFacet ||| idEndsolid) p).2 = idNone →
      (skipToToken (idFacet ||| idEndsolid) p).1.eof = true) :=
  skipToToken_correct_aux (remw p + 1) p (by omega)

/-! ## Small list helpers -/

theorem isPrefixOf_append (l r : List Nat) : l.isPrefixOf (l ++ r) = true := by
  induction l with
  | nil => simp [List.isPrefixOf]
  | cons a l ih => simp [List.isPrefixOf, ih]

theorem drop_length_append (l r : List Nat) : (l ++ r).drop l.length = r := by
  induction l with
  | nil => simp
  | cons a l ih => simp [ih]

/-! ## Claim C1 (error accumulation) — refuted on the code

`addError` passes only the new record to `errors.Join`, so each
recorded error replaces the previous joined value instead of being
appended to it. -/

/-- C1: the claim states every error recorded during a parse is present
in the final joined error value and errors never overwrite each other.
On the two-line input `hello` / `world` the parse records two
diagnostics (header-syntax at line 1, expected-token at line 2) — the
ghost log shows both, in order, with their 1-based line numbers — yet
the final `errors` value holds exactly the second record, so the first
recorded error has been overwritten and is absent from the final joined
value. -/
theorem claim_C1_addError_overwrites :
    (Parse (newParser ⟨[], []⟩ helloWorldFile)).1.errorLog =
        [(1, Err.invalidSintax), (2, Err.invalidExpectedToken)] ∧
    (Parse (newParser ⟨[], []⟩ helloWorldFile)).1.errors =
        some (2, Err.invalidExpectedToken) ∧
    (Parse (newParser ⟨[], []⟩ helloWorldFile)).1.errors ≠
        some (1, Err.invalidSintax) := by
  refine ⟨by decide, by decide, by decide⟩

/-! ## Claim C2 (idempotence) — refuted on the code -/

/-- C2: the claim states two successive `CountTriangles` invocations on
the same file yield identical results.  The package-level `triangles`
slice is never reset, so the second parse of the same well-formed
one-triangle file appends to the collection left by the first: the
first call reports 1 triangle, the second reports 2. -/
theorem claim_C2_not_idempotent :
    (countTriangles ⟨[], []⟩ (some demoFile)).2.2.1 = 1 ∧
    (countTriangles (countTriangles ⟨[], []⟩ (some demoFile)).1 (some demoFile)).2.2.1 = 2 := by
  refine ⟨by decide, by decide⟩

/-! ## Claim C3 (error reporting from CountTriangles) — refuted on the code -/

/-- C3: the claim states `CountTriangles` returns a non-nil joined
diagnostic error exactly when some problem occurred during the parse.
The code discards `Parse`'s result and the parser's `errors` field and
always returns a nil error once the file opened: on the input `hello` /
`world` the parse fails and records diagnostics, yet the returned error
component is `none`. -/
theorem claim_C3_error_discarded :
    (countTriangles ⟨[], []⟩ (some helloWorldFile)).2.2.2 = none ∧
    (Parse (newParser ⟨[], []⟩ helloWorldFile)).2 = false ∧
    (Parse (newParser ⟨[], []⟩ helloWorldFile)).1.errorLog ≠ [] := by
  refine ⟨by decide, by decide, by decide⟩

/-! ## Claim C4 (non-negative count) — corrected -/

/-- C4 counterexample: the claim as stated requires the returned
triangle count to be non-negative even when opening the input source
fails, but a failed open returns -1. -/
theorem claim_C4_counterexample :
    ¬ 0 ≤ (countTriangles ⟨[], []⟩ none).2.2.1 := by decide

/-- C4 (amended): whenever the source opens, the returned count is the
length of the accumulated triangle list and hence non-negative; on a
failed open the count is -1, returned alongside the open error. -/
theorem claim_C4_count_nonneg_when_open :
    ∀ (g : Globals) (lines : List (List Nat)),
      0 ≤ (countTriangles g (some lines)).2.2.1 ∧
      (countTriangles g none).2.2.1 = -1 ∧
      (countTriangles g none).2.2.2 = some OpenErr.cannotOpen := by
  intro g lines
  refine ⟨?_, rfl, rfl⟩
  exact Int.ofNat_nonneg _

/-! ## Claim C6 (success condition of Parse) -/

/-- C6: `Parse` reports success exactly when, after the facet loop, no
header error was flagged, no facet was skipped, and the current token
is exactly `endsolid`; in that case the terminator token is consumed
(the final state is the one after advancing past it).  Any violation
yields failure. -/
theorem claim_C6_success_iff :
    ∀ p : ParserState,
      ((Parse p).2 = true ↔
        (parsePrelude p).headerError = false ∧
        (parsePrelude p).trianglesSkipped = false ∧
        (parsePrelude p).currentWord = endsolidKw) ∧
      ((Parse p).2 = true → (Parse p).1 = (nextWord (parsePrelude p)).1) := by
  intro p
  by_cases h1 : (parsePrelude p).headerError = true
  · constructor
    · rw [Parse]
      simp only [h1, if_true]
      simp [h1]
    · intro hs
      rw [Parse] at hs
      simp [h1] at hs
  · rw [Bool.not_eq_true] at h1
    by_cases h2 : (parsePrelude p).trianglesSkipped = true
    · constructor
      · rw [Parse]
        simp only [h1, Bool.false_eq_true, if_false, h2, if_true]
        simp [h2]
      · intro hs
        rw [Parse] at hs
        simp [h1, h2] at hs
    · rw [Bool.not_eq_true] at h2
      have hP : Parse p = consumeToken idEndsolid (parsePrelude p) := by
        rw [Parse]
        simp [h1, h2]
      by_cases hw : identMatches idEndsolid (parsePrelude p).currentWord = true
      · have hc : consumeToken idEndsolid (parsePrelude p) =
            ((nextWord (parsePrelude p)).1, true) := by
          rw [consumeToken, hw]; simp
        rw [hP, hc]
        constructor
        · simp only [true_iff]
          refine ⟨h1, h2, ?_⟩
          rw [identMatches_endsolid_eq] at hw
          exact beq_iff_eq.mp hw
        · intro _; rfl
      · rw [Bool.not_eq_true] at hw
        have hc : consumeToken idEndsolid (parsePrelude p) =
            (addError (Err.invalidToken idEndsolid) (parsePrelude p), false) := by
          rw [consumeToken, hw]; simp
        rw [hP, hc]
        constructor
        · simp only [Bool.false_eq_true, false_iff]
          rintro ⟨-, -, hcw⟩
          rw [identMatches_endsolid_eq, hcw] at hw
          simp at hw
        · intro hs; simp at hs

/-- C6 witness: on the well-formed one-triangle file all three
conditions hold after the loop and `Parse` succeeds, consuming the
terminator. -/
theorem claim_C6_witness :
    (Parse (newParser ⟨[], []⟩ demoFile)).2 = true ∧
    (parsePrelude (newParser ⟨[], []⟩ demoFile)).headerError = false ∧
    (parsePrelude (newParser ⟨[], []⟩ demoFile)).trianglesSkipped = false ∧
    (parsePrelude (newParser ⟨[], []⟩ demoFile)).currentWord = endsolidKw :=
  ⟨((claim_C6_success_iff (newParser ⟨[], []⟩ demoFile)).1.mpr
      ⟨by decide, by decide, by decide⟩),
   by decide, by decide, by decide⟩

/-! ## Claim C9 (name extraction) -/

/-- C9: for a header line beginning with `solid `, the extracted name
is exactly the remainder of the line up to (excluding) the first byte
that is ≥ 128 or 0; when no such byte occurs the name is the whole
remainder. -/
theorem claim_C9_name_extraction :
    ∀ (p : ParserState) (rest : List Nat),
      p.eof = false →
      p.currentLine = expectedASCIIHeader ++ rest →
      (parseASCIIHeaderLine p).1.name =
          rest.takeWhile (fun b => decide (b < 128) && b != 0) ∧
      ((∀ b ∈ rest, b < 128 ∧ b ≠ 0) → (parseASCIIHeaderLine p).1.name = rest) ∧
      (parseASCIIHeaderLine p).2 = true := by
  intro p rest he hl
  have hpre : expectedASCIIHeader.isPrefixOf p.currentLine = true := by
    rw [hl]; exact isPrefixOf_append _ _
  have hbody : parseASCIIHeaderLine p =
      ((nextLine { p with
          name := extractASCIIString (p.currentLine.drop expectedASCIIHeader.length) }).1,
        true) := by
    rw [parseASCIIHeaderLine, he, hpre]
    simp
  have hname : extractASCIIString (p.currentLine.drop expectedASCIIHeader.length) =
      rest.takeWhile (fun b => decide (b < 128) && b != 0) := by
    rw [hl, drop_length_append, extractASCIIString_eq_takeWhile]
  have hpersist := loadLineAux_persist
    ({ p with name := extractASCIIString (p.currentLine.drop expectedASCIIHeader.length) }).restLines
    ({ p with name := extractASCIIString (p.currentLine.drop expectedASCIIHeader.length) }).line
    { p with name := extractASCIIString (p.currentLine.drop expectedASCIIHeader.length) }
  refine ⟨?_, ?_, ?_⟩
  · rw [hbody]
    show (nextLine _).1.name = _
    rw [nextLine]
    rw [hpersist.1]
    exact hname
  · intro hall
    rw [hbody]
    show (nextLine _).1.name = _
    rw [nextLine, hpersist.1]
    rw [hname]
    rw [List.takeWhile_eq_self_iff]
    intro b hb
    rcases hall b hb with ⟨hlt, hne⟩
    simp [hlt, hne]
  · rw [hbody]

/-- C9 witness: a header `solid ab\xC8c` (byte 200 mid-name) truncates
the name to `ab`. -/
theorem claim_C9_witness :
    (newParser ⟨[], []⟩ [expectedASCIIHeader ++ [97, 98, 200, 99]]).eof = false ∧
    (parseASCIIHeaderLine (newParser ⟨[], []⟩ [expectedASCIIHeader ++ [97, 98, 200, 99]])).1.name =
      [97, 98, 200, 99].takeWhile (fun b => decide (b < 128) && b != 0) ∧
    [97, 98, 200, 99].takeWhile (fun b : Nat => decide (b < 128) && b != 0) = [97, 98] :=
  ⟨by decide,
   (claim_C9_name_extraction (newParser ⟨[], []⟩ [expectedASCIIHeader ++ [97, 98, 200, 99]])
      [97, 98, 200, 99] (by decide) (by decide)).1,
   by decide⟩

/-! ## Claim C10 (short-circuited terminator check) -/

/-- C10: when the state after the facet loop has the header-error flag
or the skipped flag set, the final success computation short-circuits:
the returned state is exactly the post-loop state — the `endsolid`
token is not consumed and no diagnostic about the terminator is
recorded — and the parse fails. -/
theorem claim_C10_final_short_circuit :
    ∀ p : ParserState,
      (parsePrelude p).headerError = true ∨ (parsePrelude p).trianglesSkipped = true →
      Parse p = (parsePrelude p, false) := by
  intro p h
  rcases h with h | h
  · rw [Parse]; simp [h]
  · rw [Parse]
    by_cases h1 : (parsePrelude p).headerError = true
    · simp [h1]
    · rw [Bool.not_eq_true] at h1
      simp [h1, h]

/-- C10 witness: on `hello` / `endsolid` the header error is flagged,
the loop stops at the terminator, and the final check leaves the state
untouched: `endsolid` is still the current word and the error log holds
only the header diagnostic — no unexpected-token record about the
terminator was added. -/
theorem claim_C10_witness :
    (parsePrelude (newParser ⟨[], []⟩ helloEndFile)).headerError = true ∧
    Parse (newParser ⟨[], []⟩ helloEndFile) =
      (parsePrelude (newParser ⟨[], []⟩ helloEndFile), false) ∧
    (Parse (newParser ⟨[], []⟩ helloEndFile)).1.currentWord = endsolidKw ∧
    (Parse (newParser ⟨[], []⟩ helloEndFile)).1.errorLog = [(1, Err.invalidSintax)] :=
  ⟨by decide,
   claim_C10_final_short_circuit (newParser ⟨[], []⟩ helloEndFile) (Or.inl (by decide)),
   by decide, by decide⟩

/-! ## Claim C8 (skip-forward recovery and termination) -/

/-- C8: skip-forward advances the cursor word by word across line
boundaries; any fuel of at least the remaining word count computes its
fixed point, so its cost is bounded by the remaining input length; it
returns which of `facet`/`endsolid` was found, or `idNone` exactly with
end-of-stream reached.  The parse makes strictly monotonic forward
progress: every word advance on a live stream strictly decreases the
remaining word count and never decreases the line number, end-of-stream
is absorbing for the cursor, and the whole parse never increases the
remaining word count nor decreases the line number. -/
theorem claim_C8_skip_and_progress :
    (∀ p : ParserState, p.eof = false → remw (nextWord p).1 < remw p) ∧
    (∀ p : ParserState, p.line ≤ (nextWord p).1.line) ∧
    (∀ p : ParserState, p.eof = true → nextWord p = (p, false)) ∧
    (∀ (fuel : Nat) (p : ParserState), remw p < fuel →
        skipToTokenF fuel (idFacet ||| idEndsolid) p =
          skipToToken (idFacet ||| idEndsolid) p) ∧
    (∀ p : ParserState,
        remw (skipToToken (idFacet ||| idEndsolid) p).1 ≤ remw p ∧
        ((skipToToken (idFacet ||| idEndsolid) p).2 = idFacet →
          (skipToToken (idFacet ||| idEndsolid) p).1.currentWord = facetKw) ∧
        ((skipToToken (idFacet ||| idEndsolid) p).2 = idEndsolid →
          (skipToToken (idFacet ||| idEndsolid) p).1.currentWord = endsolidKw) ∧
        ((skipToToken (idFacet ||| idEndsolid) p).2 = idNone →
          (skipToToken (idFacet ||| idEndsolid) p).1.eof = true)) ∧
    (∀ p : ParserState, remw (Parse p).1 ≤ remw p ∧ p.line ≤ (Parse p).1.line) := by
  refine ⟨nextWord_strict, ?_, nextWord_eq_of_eof, ?_, ?_, ?_⟩
  · intro p; exact (progress_nextWord p).2.1
  · intro fuel p h
    exact skipToTokenF_congr (idFacet ||| idEndsolid) fuel (remw p + 1) p h (by omega)
  · intro p
    exact ⟨(progress_skipToToken (idFacet ||| idEndsolid) p).1, skipToToken_correct p⟩
  · intro p
    exact ⟨(progress_Parse p).1, (progress_Parse p).2.1⟩

/-- C8 witness: on the state positioned at the start of the
`hello`/`world` input, a live advance strictly decreases the remaining
words, and the skip fuel bound is attained at an explicit fuel. -/
theorem claim_C8_witness :
    (newParser ⟨[], []⟩ helloWorldFile).eof = false ∧
    remw (nextWord (newParser ⟨[], []⟩ helloWorldFile)).1 <
      remw (newParser ⟨[], []⟩ helloWorldFile) ∧
    remw (newParser ⟨[], []⟩ helloWorldFile) < 5 ∧
    skipToTokenF 5 (idFacet ||| idEndsolid) (newParser ⟨[], []⟩ helloWorldFile) =
      skipToToken (idFacet ||| idEndsolid) (newParser ⟨[], []⟩ helloWorldFile) :=
  ⟨by decide,
   claim_C8_skip_and_progress.1 (newParser ⟨[], []⟩ helloWorldFile) (by decide),
   by decide,
   claim_C8_skip_and_progress.2.2.2.1 5 (newParser ⟨[], []⟩ helloWorldFile) (by decide)⟩

/-! ## Stepping the parser across explicitly positioned states -/

theorem nextWord_cursor_cons (nm : List Nat) (tr : List Triangle) (lg : List (Nat × Err))
    (er : Option (Nat × Err)) (hE hS : Bool) (k : Nat) (cw cl : List Nat)
    (w : List Nat) (rw L : List (List Nat)) :
    nextWord (cursorState nm tr lg er hE hS k cw cl (w :: rw) L false) =
      (cursorState nm tr lg er hE hS k w cl rw L false, true) := by
  rw [nextWord_eq_cons _ w rw rfl rfl]
  rfl

theorem nextWord_cursor_newline (nm : List Nat) (tr : List Triangle) (lg : List (Nat × Err))
    (er : Option (Nat × Err)) (hE hS : Bool) (k : Nat) (cw cl : List Nat)
    (l : List Nat) (rest : List (List Nat)) (w : List Nat) (ws : List (List Nat))
    (hs : splitWords l = w :: ws) :
    nextWord (cursorState nm tr lg er hE hS k cw cl [] (l :: rest) false) =
      (cursorState nm tr lg er hE hS (k + 1) w l ws rest false, true) := by
  rw [nextWord_eq_nil _ rfl rfl]
  simp [nextLine, loadLineAux, hs, cursorState]

theorem consumeToken_cursor_cons (i : Nat) (nm : List Nat) (tr : List Triangle)
    (lg : List (Nat × Err)) (er : Option (Nat × Err)) (hE hS : Bool) (k : Nat)
    (cw cl : List Nat) (w : List Nat) (rw L : List (List Nat))
    (hm : identMatches i cw = true) :
    consumeToken i (cursorState nm tr lg er hE hS k cw cl (w :: rw) L false) =
      (cursorState nm tr lg er hE hS k w cl rw L false, true) := by
  rw [consumeToken]
  have : identMatches i (cursorState nm tr lg er hE hS k cw cl (w :: rw) L false).currentWord =
      true := hm
  rw [this]
  simp only [if_true]
  rw [nextWord_cursor_cons]

theorem consumeToken_cursor_newline (i : Nat) (nm : List Nat) (tr : List Triangle)
    (lg : List (Nat × Err)) (er : Option (Nat × Err)) (hE hS : Bool) (k : Nat)
    (cw cl : List Nat) (l : List Nat) (rest : List (List Nat)) (w : List Nat)
    (ws : List (List Nat)) (hm : identMatches i cw = true) (hs : splitWords l = w :: ws) :
    consumeToken i (cursorState nm tr lg er hE hS k cw cl [] (l :: rest) false) =
      (cursorState nm tr lg er hE hS (k + 1) w l ws rest false, true) := by
  rw [consumeToken]
  have : identMatches i (cursorState nm tr lg er hE hS k cw cl [] (l :: rest) false).currentWord =
      true := hm
  rw [this]
  simp only [if_true]
  rw [nextWord_cursor_newline nm tr lg er hE hS k cw cl l rest w ws hs]

theorem parseFloat32_cursor_cons (nm : List Nat) (tr : List Triangle)
    (lg : List (Nat × Err)) (er : Option (Nat × Err)) (hE hS : Bool) (k : Nat)
    (x cl : List Nat) (w : List Nat) (rw L : List (List Nat))
    (hv : isValidFloat x = true) :
    parseFloat32 (cursorState nm tr lg er hE hS k x cl (w :: rw) L false) =
      (cursorState nm tr lg er hE hS k w cl rw L false, some x) := by
  rw [parseFloat32]
  have hv' : isValidFloat (cursorState nm tr lg er hE hS k x cl (w :: rw) L false).currentWord =
      true := hv
  rw [hv']
  rw [nextWord_cursor_cons nm tr lg er hE hS k x cl w rw L]
  rfl

theorem parseFloat32_cursor_newline (nm : List Nat) (tr : List Triangle)
    (lg : List (Nat × Err)) (er : Option (Nat × Err)) (hE hS : Bool) (k : Nat)
    (x cl : List Nat) (l : List Nat) (rest : List (List Nat)) (w : List Nat)
    (ws : List (List Nat)) (hv : isValidFloat x = true) (hs : splitWords l = w :: ws) :
    parseFloat32 (cursorState nm tr lg er hE hS k x cl [] (l :: rest) false) =
      (cursorState nm tr lg er hE hS (k + 1) w l ws rest false, some x) := by
  rw [parseFloat32]
  have hv' : isValidFloat (cursorState nm tr lg er hE hS k x cl [] (l :: rest) false).currentWord =
      true := hv
  rw [hv']
  rw [nextWord_cursor_newline nm tr lg er hE hS k x cl l rest w ws hs]
  rfl

/-- A point whose three tokens close out the current line: parse the
three floats and land on the first word of the following line. -/
theorem parsePoint_cursor_step (nm : List Nat) (tr : List Triangle)
    (lg : List (Nat × Err)) (er : Option (Nat × Err)) (hE hS : Bool) (k : Nat)
    (x y z cl : List Nat) (l : List Nat) (rest : List (List Nat)) (w : List Nat)
    (ws : List (List Nat))
    (hx : isValidFloat x = true) (hy : isValidFloat y = true) (hz : isValidFloat z = true)
    (hs : splitWords l = w :: ws) :
    parsePoint (cursorState nm tr lg er hE hS k x cl [y, z] (l :: rest) false) =
      (cursorState nm tr lg er hE hS (k + 1) w l ws rest false, some (x, y, z)) := by
  have e1 := parseFloat32_cursor_cons nm tr lg er hE hS k x cl y [z] (l :: rest) hx
  have e2 := parseFloat32_cursor_cons nm tr lg er hE hS k y cl z [] (l :: rest) hy
  have e3 := parseFloat32_cursor_newline nm tr lg er hE hS k z cl l rest w ws hz hs
  simp only [parsePoint, e1, e2, e3]

/-- Parsing one canonical facet block from its block-start state
succeeds, produces its triangle, and leaves the cursor on the word
delivered by the advance past `endfacet`. -/
theorem parseFacet_block (nm : List Nat) (tr : List Triangle) (lg : List (Nat × Err))
    (er : Option (Nat × Err)) (hE hS : Bool) (k : Nat) (b : FacetBlock)
    (L : List (List Nat)) (hb : facetBlockOK b = true) :
    parseFacet (blockState nm tr lg er hE hS k b L) =
      ((nextWord (cursorState nm tr lg er hE hS (k + 6) endfacetKw endfacetKw [] L false)).1,
        some (mkTri b)) := by
  have hbn : pointOK b.normal = true := by
    simp only [facetBlockOK, Bool.and_eq_true] at hb; exact hb.1.1.1
  have hb0 : pointOK b.v0 = true := by
    simp only [facetBlockOK, Bool.and_eq_true] at hb; exact hb.1.1.2
  have hb1 : pointOK b.v1 = true := by
    simp only [facetBlockOK, Bool.and_eq_true] at hb; exact hb.1.2
  have hb2 : pointOK b.v2 = true := by
    simp only [facetBlockOK, Bool.and_eq_true] at hb; exact hb.2
  have pt : ∀ pt : PointTok, pointOK pt = true →
      (isWordTok pt.x = true ∧ isValidFloat pt.x = true) ∧
      (isWordTok pt.y = true ∧ isValidFloat pt.y = true) ∧
      (isWordTok pt.z = true ∧ isValidFloat pt.z = true) := by
    intro q hq
    simp only [pointOK, Bool.and_eq_true] at hq
    exact ⟨⟨hq.1.1.1.1.1, hq.1.1.1.1.2⟩, ⟨hq.1.1.1.2, hq.1.1.2⟩, ⟨hq.1.2, hq.2⟩⟩
  obtain ⟨⟨hnxw, hnxf⟩, ⟨hnyw, hnyf⟩, ⟨hnzw, hnzf⟩⟩ := pt b.normal hbn
  obtain ⟨⟨h0xw, h0xf⟩, ⟨h0yw, h0yf⟩, ⟨h0zw, h0zf⟩⟩ := pt b.v0 hb0
  obtain ⟨⟨h1xw, h1xf⟩, ⟨h1yw, h1yf⟩, ⟨h1zw, h1zf⟩⟩ := pt b.v1 hb1
  obtain ⟨⟨h2xw, h2xf⟩, ⟨h2yw, h2yf⟩, ⟨h2zw, h2zf⟩⟩ := pt b.v2 hb2
  have hsOuter : splitWords (mkLine [outerKw, loopKw]) = [outerKw, loopKw] := by decide
  have hsV0 : splitWords (mkLine [vertexKw, b.v0.x, b.v0.y, b.v0.z]) =
      [vertexKw, b.v0.x, b.v0.y, b.v0.z] :=
    splitWords_mkLine _ (by
      intro w hw
      simp only [List.mem_cons, List.not_mem_nil, or_false] at hw
      rcases hw with h | h | h | h <;> subst h
      · decide
      · exact h0xw
      · exact h0yw
      · exact h0zw)
  have hsV1 : splitWords (mkLine [vertexKw, b.v1.x, b.v1.y, b.v1.z]) =
      [vertexKw, b.v1.x, b.v1.y, b.v1.z] :=
    splitWords_mkLine _ (by
      intro w hw
      simp only [List.mem_cons, List.not_mem_nil, or_false] at hw
      rcases hw with h | h | h | h <;> subst h
      · decide
      · exact h1xw
      · exact h1yw
      · exact h1zw)
  have hsV2 : splitWords (mkLine [vertexKw, b.v2.x, b.v2.y, b.v2.z]) =
      [vertexKw, b.v2.x, b.v2.y, b.v2.z] :=
    splitWords_mkLine _ (by
      intro w hw
      simp only [List.mem_cons, List.not_mem_nil, or_false] at hw
      rcases hw with h | h | h | h <;> subst h
      · decide
      · exact h2xw
      · exact h2yw
      · exact h2zw)
  have hsEl : splitWords endloopKw = [endloopKw] := by decide
  have hsEf : splitWords endfacetKw = [endfacetKw] := by decide
  have e1 := consumeToken_cursor_cons idFacet nm tr lg er hE hS k facetKw
    (mkLine [facetKw, normalKw, b.normal.x, b.normal.y, b.normal.z]) normalKw [b.normal.x, b.normal.y, b.normal.z]
    ((mkLine [outerKw, loopKw]) :: ((mkLine [vertexKw, b.v0.x, b.v0.y, b.v0.z]) :: ((mkLine [vertexKw, b.v1.x, b.v1.y, b.v1.z]) :: ((mkLine [vertexKw, b.v2.x, b.v2.y, b.v2.z]) :: (endloopKw :: (endfacetKw :: L)))))) (by decide)
  have e2 := consumeToken_cursor_cons idNormal nm tr lg er hE hS k normalKw
    (mkLine [facetKw, normalKw, b.normal.x, b.normal.y, b.normal.z]) b.normal.x [b.normal.y, b.normal.z]
    ((mkLine [outerKw, loopKw]) :: ((mkLine [vertexKw, b.v0.x, b.v0.y, b.v0.z]) :: ((mkLine [vertexKw, b.v1.x, b.v1.y, b.v1.z]) :: ((mkLine [vertexKw, b.v2.x, b.v2.y, b.v2.z]) :: (endloopKw :: (endfacetKw :: L)))))) (by decide)
  have e3 := parsePoint_cursor_step nm tr lg er hE hS k b.normal.x b.normal.y b.normal.z
    (mkLine [facetKw, normalKw, b.normal.x, b.normal.y, b.normal.z]) (mkLine [outerKw, loopKw]) ((mkLine [vertexKw, b.v0.x, b.v0.y, b.v0.z]) :: ((mkLine [vertexKw, b.v1.x, b.v1.y, b.v1.z]) :: ((mkLine [vertexKw, b.v2.x, b.v2.y, b.v2.z]) :: (endloopKw :: (endfacetKw :: L)))))
    outerKw [loopKw] hnxf hnyf hnzf hsOuter
  have e4 := consumeToken_cursor_cons idOuter nm tr lg er hE hS (k + 1) outerKw
    (mkLine [outerKw, loopKw]) loopKw [] ((mkLine [vertexKw, b.v0.x, b.v0.y, b.v0.z]) :: ((mkLine [vertexKw, b.v1.x, b.v1.y, b.v1.z]) :: ((mkLine [vertexKw, b.v2.x, b.v2.y, b.v2.z]) :: (endloopKw :: (endfacetKw :: L))))) (by decide)
  have e5 := consumeToken_cursor_newline idLoop nm tr lg er hE hS (k + 1) loopKw
    (mkLine [outerKw, loopKw]) (mkLine [vertexKw, b.v0.x, b.v0.y, b.v0.z]) ((mkLine [vertexKw, b.v1.x, b.v1.y, b.v1.z]) :: ((mkLine [vertexKw, b.v2.x, b.v2.y, b.v2.z]) :: (endloopKw :: (endfacetKw :: L))))
    vertexKw [b.v0.x, b.v0.y, b.v0.z] (by decide) hsV0
  have e6 := consumeToken_cursor_cons idVertex nm tr lg er hE hS (k + 2) vertexKw
    (mkLine [vertexKw, b.v0.x, b.v0.y, b.v0.z]) b.v0.x [b.v0.y, b.v0.z] ((mkLine [vertexKw, b.v1.x, b.v1.y, b.v1.z]) :: ((mkLine [vertexKw, b.v2.x, b.v2.y, b.v2.z]) :: (endloopKw :: (endfacetKw :: L)))) (by decide)
  have e7 := parsePoint_cursor_step nm tr lg er hE hS (k + 2) b.v0.x b.v0.y b.v0.z
    (mkLine [vertexKw, b.v0.x, b.v0.y, b.v0.z]) (mkLine [vertexKw, b.v1.x, b.v1.y, b.v1.z]) ((mkLine [vertexKw, b.v2.x, b.v2.y, b.v2.z]) :: (endloopKw :: (endfacetKw :: L)))
    vertexKw [b.v1.x, b.v1.y, b.v1.z] h0xf h0yf h0zf hsV1
  have e8 := consumeToken_cursor_cons idVertex nm tr lg er hE hS (k + 3) vertexKw
    (mkLine [vertexKw, b.v1.x, b.v1.y, b.v1.z]) b.v1.x [b.v1.y, b.v1.z] ((mkLine [vertexKw, b.v2.x, b.v2.y, b.v2.z]) :: (endloopKw :: (endfacetKw :: L))) (by decide)
  have e9 := parsePoint_cursor_step nm tr lg er hE hS (k + 3) b.v1.x b.v1.y b.v1.z
    (mkLine [vertexKw, b.v1.x, b.v1.y, b.v1.z]) (mkLine [vertexKw, b.v2.x, b.v2.y, b.v2.z]) (endloopKw :: (endfacetKw :: L))
    vertexKw [b.v2.x, b.v2.y, b.v2.z] h1xf h1yf h1zf hsV2
  have e10 := consumeToken_cursor_cons idVertex nm tr lg er hE hS (k + 4) vertexKw
    (mkLine [vertexKw, b.v2.x, b.v2.y, b.v2.z]) b.v2.x [b.v2.y, b.v2.z] (endloopKw :: (endfacetKw :: L)) (by decide)
  have e11 := parsePoint_cursor_step nm tr lg er hE hS (k + 4) b.v2.x b.v2.y b.v2.z
    (mkLine [vertexKw, b.v2.x, b.v2.y, b.v2.z]) endloopKw (endfacetKw :: L)
    endloopKw [] h2xf h2yf h2zf hsEl
  have e12 := consumeToken_cursor_newline idEndloop nm tr lg er hE hS (k + 5) endloopKw
    endloopKw endfacetKw L endfacetKw [] (by decide) hsEf
  have e13 : consumeToken idEndfacet
      (cursorState nm tr lg er hE hS (k + 6) endfacetKw endfacetKw [] L false) =
      ((nextWord (cursorState nm tr lg er hE hS (k + 6) endfacetKw endfacetKw [] L false)).1,
        true) := by
    rw [consumeToken]
    have hm : identMatches idEndfacet
        (cursorState nm tr lg er hE hS (k + 6) endfacetKw endfacetKw [] L false).currentWord =
        true := rfl
    rw [hm]
    simp
  have hstart : blockState nm tr lg er hE hS k b L =
      cursorState nm tr lg er hE hS k facetKw
        (mkLine [facetKw, normalKw, b.normal.x, b.normal.y, b.normal.z]) [normalKw, b.normal.x, b.normal.y, b.normal.z]
        ((mkLine [outerKw, loopKw]) :: ((mkLine [vertexKw, b.v0.x, b.v0.y, b.v0.z]) :: ((mkLine [vertexKw, b.v1.x, b.v1.y, b.v1.z]) :: ((mkLine [vertexKw, b.v2.x, b.v2.y, b.v2.z]) :: (endloopKw :: (endfacetKw :: L)))))) false := by
    rw [blockState, facetTailLines]
    simp
  rw [hstart]
  simp only [parseFacet, e1, e2, e3, e4, e5, e6, e7, e8, e9, e10, e11, e12, e13, mkTri]

/-- The facet loop walks a list of well-formed canonical blocks: it
appends their triangles in source order and lands on the first word of
the line following the blocks, with diagnostics, flags and name
untouched. -/
theorem triangleLoop_blocks :
    ∀ (bs : List FacetBlock) (b : FacetBlock) (nm : List Nat) (tr : List Triangle)
      (lg : List (Nat × Err)) (er : Option (Nat × Err)) (hE hS : Bool) (k : Nat)
      (l : List Nat) (L' : List (List Nat)) (w : List Nat) (ws : List (List Nat)),
      facetBlockOK b = true → (∀ x ∈ bs, facetBlockOK x = true) →
      splitWords l = w :: ws →
      triangleLoop (blockState nm tr lg er hE hS k b (blocksLines bs ++ (l :: L'))) =
        triangleLoop (cursorState nm (tr ++ (b :: bs).map mkTri) lg er hE hS
          (k + 7 * (bs.length + 1)) w l ws L' false) := by
  intro bs
  induction bs with
  | nil =>
    intro b nm tr lg er hE hS k l L' w ws hb _ hL
    have hg : ((blockState nm tr lg er hE hS k b (blocksLines [] ++ (l :: L'))).eof ||
        isCurrentTokenIdent idEndsolid
          (blockState nm tr lg er hE hS k b (blocksLines [] ++ (l :: L')))) = false := rfl
    have hf : isCurrentTokenIdent idFacet
        (blockState nm tr lg er hE hS k b (blocksLines [] ++ (l :: L'))) = true := rfl
    rw [triangleLoop_eq]
    simp only [hg, hf, Bool.false_eq_true, if_false, if_true]
    rw [facetStep, parseFacet_block nm tr lg er hE hS k b _ hb]
    have hrest : blocksLines [] ++ (l :: L') = l :: L' := by simp [blocksLines]
    rw [hrest, nextWord_cursor_newline nm tr lg er hE hS (k + 6) endfacetKw endfacetKw
      l L' w ws hL]
    show triangleLoop (cursorState nm (tr ++ [mkTri b]) lg er hE hS
        (k + 6 + 1) w l ws L' false) = _
    have h7 : k + 6 + 1 = k + 7 * (List.length ([] : List FacetBlock) + 1) := by simp
    rw [h7]
    simp
  | cons b2 rest ih =>
    intro b nm tr lg er hE hS k l L' w ws hb hbs hL
    have hg : ((blockState nm tr lg er hE hS k b
        (blocksLines (b2 :: rest) ++ (l :: L'))).eof ||
        isCurrentTokenIdent idEndsolid
          (blockState nm tr lg er hE hS k b
            (blocksLines (b2 :: rest) ++ (l :: L')))) = false := rfl
    have hf : isCurrentTokenIdent idFacet
        (blockState nm tr lg er hE hS k b
          (blocksLines (b2 :: rest) ++ (l :: L'))) = true := rfl
    rw [triangleLoop_eq]
    simp only [hg, hf, Bool.false_eq_true, if_false, if_true]
    rw [facetStep, parseFacet_block nm tr lg er hE hS k b _ hb]
    have hb2 : facetBlockOK b2 = true := hbs b2 (by simp)
    have hsplit1 : splitWords (mkLine [facetKw, normalKw, b2.normal.x, b2.normal.y,
        b2.normal.z]) = facetKw :: [normalKw, b2.normal.x, b2.normal.y, b2.normal.z] := by
      apply splitWords_mkLine
      intro x hx
      simp only [List.mem_cons, List.not_mem_nil, or_false] at hx
      have hq : pointOK b2.normal = true := by
        simp only [facetBlockOK, Bool.and_eq_true] at hb2; exact hb2.1.1.1
      simp only [pointOK, Bool.and_eq_true] at hq
      rcases hx with h | h | h | h | h <;> subst h
      · decide
      · decide
      · exact hq.1.1.1.1.1
      · exact hq.1.1.1.2
      · exact hq.1.2
    have hrest : blocksLines (b2 :: rest) ++ (l :: L') =
        (mkLine [facetKw, normalKw, b2.normal.x, b2.normal.y, b2.normal.z]) ::
          (facetTailLines b2 ++ (blocksLines rest ++ (l :: L'))) := by
      simp [blocksLines, facetLines]
    rw [hrest, nextWord_cursor_newline nm tr lg er hE hS (k + 6) endfacetKw endfacetKw
      _ _ _ _ hsplit1]
    show triangleLoop (blockState nm (tr ++ [mkTri b]) lg er hE hS
        (k + 6 + 1) b2 (blocksLines rest ++ (l :: L'))) = _
    rw [ih b2 nm (tr ++ [mkTri b]) lg er hE hS (k + 6 + 1) l L' w ws hb2
      (fun x hx => hbs x (by simp [hx])) hL]
    have harith : k + 6 + 1 + 7 * (rest.length + 1) =
        k + 7 * ((b2 :: rest).length + 1) := by
      simp only [List.length_cons]
      ring
    rw [harith]
    simp

/-- The first line of a canonical block splits into its five tokens. -/
theorem splitWords_facetLine1 (b : FacetBlock) (hb : facetBlockOK b = true) :
    splitWords (mkLine [facetKw, normalKw, b.normal.x, b.normal.y, b.normal.z]) =
      [facetKw, normalKw, b.normal.x, b.normal.y, b.normal.z] := by
  apply splitWords_mkLine
  intro x hx
  simp only [List.mem_cons, List.not_mem_nil, or_false] at hx
  have hq : pointOK b.normal = true := by
    simp only [facetBlockOK, Bool.and_eq_true] at hb; exact hb.1.1.1
  simp only [pointOK, Bool.and_eq_true] at hq
  rcases hx with h | h | h | h | h <;> subst h
  · decide
  · decide
  · exact hq.1.1.1.1.1
  · exact hq.1.1.1.2
  · exact hq.1.2

/-- When the state after the facet loop sits on an `endsolid` line with
nothing after it and clear flags, `Parse` consumes the terminator,
reaches end-of-stream and succeeds. -/
theorem Parse_of_prelude_endsolid (p : ParserState) (nm' : List Nat) (tr : List Triangle)
    (lg : List (Nat × Err)) (er : Option (Nat × Err)) (k : Nat)
    (h : parsePrelude p = cursorState nm' tr lg er false false k endsolidKw endsolidKw [] [] false) :
    Parse p = (cursorState nm' tr lg er false false k [] [] [] [] true, true) := by
  rw [Parse, h]
  have h1 : (cursorState nm' tr lg er false false k endsolidKw endsolidKw [] [] false).headerError =
      false := rfl
  have h2 : (cursorState nm' tr lg er false false k
      endsolidKw endsolidKw [] [] false).trianglesSkipped = false := rfl
  simp only [h1, h2, Bool.false_eq_true, if_false]
  rw [consumeToken]
  have hm : identMatches idEndsolid
      (cursorState nm' tr lg er false false k endsolidKw endsolidKw [] [] false).currentWord =
      true := rfl
  rw [hm]
  simp only [if_true]
  rw [nextWord_eq_nil _ rfl rfl]
  simp [nextLine, loadLineAux, cursorState]

/-- Overwriting a clear header-error flag with `false` is the identity. -/
theorem setHeaderError_self (p : ParserState) (h : p.headerError = false) :
    { p with headerError := false } = p := by
  cases p
  simp only at h
  simp [h]

/-- C5 main lemma: on a fully well-formed input the parse succeeds,
appends exactly the blocks' triangles in source order, and records no
diagnostics. -/
theorem claim_C5_wf_parse :
    ∀ (g : Globals) (nm : List Nat) (bs : List FacetBlock),
      (∀ b ∈ bs, facetBlockOK b = true) →
      (Parse (newParser g (wfInput nm bs))).2 = true ∧
      (Parse (newParser g (wfInput nm bs))).1.triangles = g.triangles ++ bs.map mkTri ∧
      (Parse (newParser g (wfInput nm bs))).1.errorLog = [] ∧
      (Parse (newParser g (wfInput nm bs))).1.errors = none := by
  intro g nm bs hbs
  have hhs : splitWords (expectedASCIIHeader ++ nm) = solidKw :: splitWords nm := by
    have h : expectedASCIIHeader ++ nm = solidKw ++ 32 :: nm := by
      simp [expectedASCIIHeader]
    rw [h]
    exact splitWords_word_space solidKw nm (by decide)
  have hnp : newParser g (wfInput nm bs) =
      cursorState g.name g.triangles [] none false false 1 solidKw
        (expectedASCIIHeader ++ nm) (splitWords nm) (blocksLines bs ++ [endsolidKw]) false := by
    rw [newParser, wfInput, nextLine]
    simp [loadLineAux, hhs, cursorState]
  have hprefix : expectedASCIIHeader.isPrefixOf (expectedASCIIHeader ++ nm) = true :=
    isPrefixOf_append _ _
  have hhdr : parseASCIIHeaderLine (cursorState g.name g.triangles [] none false false 1 solidKw
      (expectedASCIIHeader ++ nm) (splitWords nm) (blocksLines bs ++ [endsolidKw]) false) =
      ((nextLine (cursorState (extractASCIIString nm) g.triangles [] none false false 1 solidKw
        (expectedASCIIHeader ++ nm) (splitWords nm)
        (blocksLines bs ++ [endsolidKw]) false)).1, true) := by
    rw [parseASCIIHeaderLine]
    simp [cursorState, hprefix, drop_length_append]
  have hprel : parsePrelude (newParser g (wfInput nm bs)) =
      triangleLoop ((nextLine (cursorState (extractASCIIString nm) g.triangles [] none false false 1 solidKw
        (expectedASCIIHeader ++ nm) (splitWords nm) (blocksLines bs ++ [endsolidKw]) false)).1) := by
    rw [parsePrelude, hnp]
    have he : (cursorState g.name g.triangles [] none false false 1 solidKw
        (expectedASCIIHeader ++ nm) (splitWords nm)
        (blocksLines bs ++ [endsolidKw]) false).eof = false := rfl
    simp only [he, Bool.false_eq_true, if_false, hhdr, Bool.not_true]
    congr 1
    apply setHeaderError_self
    rw [nextLine]
    exact (loadLineAux_persist _ _ _).2.2.2.1
  cases bs with
  | nil =>
    have hload : (nextLine (cursorState (extractASCIIString nm) g.triangles [] none false false
        1 solidKw (expectedASCIIHeader ++ nm) (splitWords nm)
        (blocksLines [] ++ [endsolidKw]) false)).1 =
        cursorState (extractASCIIString nm) g.triangles [] none false false 2
          endsolidKw endsolidKw [] [] false := by
      have hse : splitWords endsolidKw = [endsolidKw] := by decide
      simp [nextLine, loadLineAux, blocksLines, hse, cursorState]
    have hloop : parsePrelude (newParser g (wfInput nm [])) =
        cursorState (extractASCIIString nm) g.triangles [] none false false 2
          endsolidKw endsolidKw [] [] false := by
      rw [hprel, hload, triangleLoop_eq]
      have hg : ((cursorState (extractASCIIString nm) g.triangles [] none false false 2
          endsolidKw endsolidKw [] [] false).eof ||
          isCurrentTokenIdent idEndsolid
            (cursorState (extractASCIIString nm) g.triangles [] none false false 2
              endsolidKw endsolidKw [] [] false)) = true := rfl
      rw [hg]
      simp
    have hP := Parse_of_prelude_endsolid (newParser g (wfInput nm []))
      (extractASCIIString nm) g.triangles [] none 2 hloop
    rw [hP]
    refine ⟨rfl, ?_, rfl, rfl⟩
    simp [cursorState]
  | cons b rest =>
    have hb : facetBlockOK b = true := hbs b (by simp)
    have hsplit1 := splitWords_facetLine1 b hb
    have hload : (nextLine (cursorState (extractASCIIString nm) g.triangles [] none false false
        1 solidKw (expectedASCIIHeader ++ nm) (splitWords nm)
        (blocksLines (b :: rest) ++ [endsolidKw]) false)).1 =
        blockState (extractASCIIString nm) g.triangles [] none false false 2 b
          (blocksLines rest ++ [endsolidKw]) := by
      have hrl : blocksLines (b :: rest) ++ [endsolidKw] =
          (mkLine [facetKw, normalKw, b.normal.x, b.normal.y, b.normal.z]) ::
            (facetTailLines b ++ (blocksLines rest ++ [endsolidKw])) := by
        simp [blocksLines, facetLines]
      rw [nextLine]
      simp only [cursorState]
      rw [hrl]
      simp [loadLineAux, hsplit1, blockState, cursorState, facetLines]
    have hse : splitWords endsolidKw = [endsolidKw] := by decide
    have hloop : parsePrelude (newParser g (wfInput nm (b :: rest))) =
        cursorState (extractASCIIString nm) (g.triangles ++ (b :: rest).map mkTri) [] none
          false false (2 + 7 * (rest.length + 1)) endsolidKw endsolidKw [] [] false := by
      rw [hprel, hload]
      rw [triangleLoop_blocks rest b (extractASCIIString nm) g.triangles [] none false false 2
        endsolidKw [] endsolidKw [] hb (fun x hx => hbs x (by simp [hx])) hse]
      rw [triangleLoop_eq]
      have hg : ((cursorState (extractASCIIString nm) (g.triangles ++ (b :: rest).map mkTri)
          [] none false false (2 + 7 * (rest.length + 1))
          endsolidKw endsolidKw [] [] false).eof ||
          isCurrentTokenIdent idEndsolid
            (cursorState (extractASCIIString nm) (g.triangles ++ (b :: rest).map mkTri)
              [] none false false (2 + 7 * (rest.length + 1))
              endsolidKw endsolidKw [] [] false)) = true := rfl
      rw [hg]
      simp
    have hP := Parse_of_prelude_endsolid (newParser g (wfInput nm (b :: rest)))
      (extractASCIIString nm) (g.triangles ++ (b :: rest).map mkTri) [] none
      (2 + 7 * (rest.length + 1)) hloop
    rw [hP]
    refine ⟨rfl, ?_, rfl, rfl⟩
    simp [cursorState]

/-! ## Failure and recovery steps on explicitly positioned states -/

/-- C5 witness: a one-block instance (the `demoFile` content). -/
theorem claim_C5_witness :
    (∀ b ∈ [demoBlock], facetBlockOK b = true) ∧
    (Parse (newParser ⟨[], []⟩ (wfInput [99, 117, 98, 101] [demoBlock]))).2 = true ∧
    (Parse (newParser ⟨[], []⟩ (wfInput [99, 117, 98, 101] [demoBlock]))).1.triangles =
      [mkTri demoBlock] ∧
    (Parse (newParser ⟨[], []⟩ (wfInput [99, 117, 98, 101] [demoBlock]))).1.errorLog = [] :=
  ⟨by decide,
   (claim_C5_wf_parse ⟨[], []⟩ [99, 117, 98, 101] [demoBlock] (by decide)).1,
   by
     have h := (claim_C5_wf_parse ⟨[], []⟩ [99, 117, 98, 101] [demoBlock] (by decide)).2.1
     simpa using h,
   (claim_C5_wf_parse ⟨[], []⟩ [99, 117, 98, 101] [demoBlock] (by decide)).2.2.1⟩

end STL










